import Mathlib

/-!
Shallow embedding of `core/parallel/distributed_dualtree_task_queue.h`
(class `DistributedDualtreeTaskQueue`) and of the collaborator state it
observably drives (table-exchange cache locks, flush requests, completed-work
broadcasts).  All operations are embedded as pure state transformers over the
`TaskQueue` record; every mutation the C++ code performs under its re-entrant
mutex becomes a field update.  Machine `unsigned long` counters are `Nat`
with explicit wrap-around modulo `2 ^ 64`.  C++ operations whose source
dereferences a possibly-null handle or takes `top()` of a possibly-empty heap
return `Option`, with `none` marking the undefined execution.
-/

namespace DistributedDualtreeTaskQueueSpec

/-- A node of a process-local tree: a half-open point range `[beginIdx,
beginIdx + count)` carrying an abstract geometric bound.  The bound is only
ever consumed through the metric parameter, so it is an opaque integer. -/
inductive Tree where
  | leaf (beginIdx count : Nat) (bd : Int)
  | node (beginIdx count : Nat) (bd : Int) (l r : Tree)
deriving DecidableEq

def Tree.beginIdx : Tree → Nat
  | .leaf b _ _ => b
  | .node b _ _ _ _ => b

def Tree.count : Tree → Nat
  | .leaf _ c _ => c
  | .node _ c _ _ _ => c

def Tree.bd : Tree → Int
  | .leaf _ _ bd => bd
  | .node _ _ bd _ _ => bd

def Tree.isLeaf : Tree → Bool
  | .leaf _ _ _ => true
  | .node _ _ _ _ _ => false

/-- `left()`; on a leaf the C++ pointer would be null, the value returned
here for a leaf is junk and is never relied upon by any theorem. -/
def Tree.left : Tree → Tree
  | .leaf b c bd => .leaf b c bd
  | .node _ _ _ l _ => l

/-- `right()`; junk on a leaf, as for `Tree.left`. -/
def Tree.right : Tree → Tree
  | .leaf b c bd => .leaf b c bd
  | .node _ _ _ _ r => r

/-- A subtable: a view of a table anchored at a start node.  `tableRank` is
`table()->rank()`, `startNode` is `start_node()`, `originatingRank` is the
value set by `set_originating_rank`, `cacheBlockId` by `set_cache_block_id`.
`resultStamp` abstracts the mutable query-result payload (Modelled from the
spec: `SubTable::Copy` of sub_table.h is not under src/; per the spec,
synchronize overwrites only the subtree's mutable data, so that payload is
one opaque field while the identity `(rank, begin, count)` is untouched). -/
structure SubTable where
  tableRank : Int
  startNode : Tree
  originatingRank : Int
  cacheBlockId : Int
  resultStamp : Int
deriving DecidableEq

def SubTable.dflt : SubTable :=
  { tableRank := -1, startNode := .leaf 0 0 0, originatingRank := -1,
    cacheBlockId := -1, resultStamp := 0 }

/-- `subtable_id()`: the identifying triple (rank, begin, count). -/
def SubTable.subtableId (s : SubTable) : Int × Nat × Nat :=
  (s.tableRank, s.startNode.beginIdx, s.startNode.count)

/-- Modelled from the spec: `SubTable::includes` (sub_table.h is not under
src/) holds when the receiver's begin/count range covers the argument's. -/
def SubTable.includes (s r : SubTable) : Bool :=
  decide (s.startNode.beginIdx ≤ r.startNode.beginIdx) &&
  decide (r.startNode.beginIdx + r.startNode.count ≤
          s.startNode.beginIdx + s.startNode.count)

/-- Modelled from the spec: `SubTable::Copy` overwrites the mutable data of
the receiver with the argument's, leaving the identity alone. -/
def SubTable.Copy (s r : SubTable) : SubTable :=
  { s with resultStamp := r.resultStamp }

/-- A dual-tree task: a query subtable paired with a reference subtable and
a priority score. -/
structure Task where
  querySubtable : SubTable
  referenceSubtable : SubTable
  priority : Int
deriving DecidableEq

/-- Modelled from the spec: `work()` of a task (distributed_dualtree_task.h
is not under src/) is the product of the query and reference point counts. -/
def Task.work (t : Task) : Nat :=
  t.querySubtable.startNode.count * t.referenceSubtable.startNode.count

/-- The task priority queue (`TaskPriorityQueueType`), a max-heap by
priority, embedded as a list kept sorted by descending priority; ties keep
insertion order, a deterministic tie-break as the spec permits. -/
abbrev TaskHeap := List Task

def heapPush (t : Task) : TaskHeap → TaskHeap
  | [] => [t]
  | x :: xs => if x.priority < t.priority then t :: x :: xs else x :: heapPush t xs

/-- Modelled from the spec: `DisjointIntIntervals`
(disjoint_int_intervals.h is not under src/): a set of half-open integer
intervals keyed by owning rank, as a list of (rank, begin, end) triples. -/
abbrev Interval := Int × Nat × Nat

def intervalOverlaps (a b : Interval) : Bool :=
  decide (a.1 = b.1) && decide (a.2.1 < b.2.2) && decide (b.2.1 < a.2.2)

/-- Modelled from the spec: `DisjointIntIntervals::Insert` returns `true`
and records the interval iff it is disjoint from every recorded interval of
the same rank; otherwise returns `false` without mutation. -/
def disInsert (s : List Interval) (iv : Interval) : Bool × List Interval :=
  if s.any (fun j => intervalOverlaps iv j) then (false, s) else (true, iv :: s)

/-- Modelled from the spec: the checked-out entry (`QuerySubTableLock`,
query_subtable_lock.h is not under src/): the query subtree, its task heap,
its assigned-work set, its remaining-work counter, and the locking peer
rank.  The assigned-work handle is an `Option` because the underlying
`intrusive_ptr` may be null (a slot grown by `GrowSlots_` never allocates
one). -/
structure QuerySubTableLock where
  query_subtable_ : SubTable
  task_ : TaskHeap
  assigned_work_ : Option (List Interval)
  remaining_work_for_query_subtable_ : Nat
  locked_mpi_rank_ : Int
deriving DecidableEq

def QuerySubTableLock.dflt : QuerySubTableLock :=
  { query_subtable_ := SubTable.dflt, task_ := [], assigned_work_ := none,
    remaining_work_for_query_subtable_ := 0, locked_mpi_rank_ := -1 }

/-- `2 ^ 64`, the modulus of the C++ `unsigned long` counters. -/
def M64 : Nat := 2 ^ 64

/-- `unsigned long` addition. -/
def add64 (a b : Nat) : Nat := (a + b) % M64

/-- `unsigned long` subtraction (wraps below zero). -/
def sub64 (a b : Nat) : Nat := (a + (M64 - b % M64)) % M64

/-- The state of `DistributedDualtreeTaskQueue`, with the parallel vectors,
the checked-out list and the counters named as in the source, plus the
observable effects the queue performs on its table-exchange collaborator:
`cache_` backs `FindSubTable`, `local_find_` backs `FindByBeginCount` on the
local table (of rank `local_rank_`), `cache_locks_` logs every
`LockCache(cache_id, n)` call, `flush_requests_` logs `QueueFlushRequest`,
and `completed_broadcasts_` logs `push_completed_computation` routed to the
exchange. -/
structure TaskQueue where
  assigned_work_ : List (Option (List Interval))
  checked_out_query_subtables_ : List QuerySubTableLock
  num_exported_query_subtables_ : Int
  num_imported_query_subtables_ : Int
  num_remaining_tasks_ : Int
  num_threads_ : Int
  query_subtables_ : List SubTable
  remaining_work_for_query_subtables_ : List Nat
  tasks_ : List TaskHeap
  remaining_global_computation_ : Nat
  remaining_local_computation_ : Nat
  cache_ : List (Int × SubTable)
  local_find_ : List (Nat × Nat × Tree)
  local_rank_ : Int
  cache_locks_ : List (Int × Int)
  flush_requests_ : List SubTable
  completed_broadcasts_ : List Nat
deriving DecidableEq

/-- `process_rank_favor_factor_`. -/
def process_rank_favor_factor_ : Int := 0

/-- The task priority of `PushTask`:
`- squared_distance_range.mid() - favor_factor * process_rank(...)`, with
the metric's mid-of-squared-distance-range between the two bounds and the
exchange's process-rank distance abstracted as the integer-valued parameters
`metric` and `prank`. -/
def taskPriority (metric : Int → Int → Int) (prank : Int → Int)
    (qs rs : SubTable) : Int :=
  -(metric qs.startNode.bd rs.startNode.bd) -
    process_rank_favor_factor_ * prank rs.tableRank

/-- `table_exchange_.LockCache(cache_id, n)`: logged as an effect. -/
def LockCache (cache_id : Int) (n : Int) (q : TaskQueue) : TaskQueue :=
  { q with cache_locks_ := q.cache_locks_ ++ [(cache_id, n)] }

/-- Swap-with-last removal used by `Evict_` on each parallel vector: the
last element overwrites position `i`, then the tail is popped.  `back()` on
an empty vector is undefined in C++; on the empty list the result is the
empty list (never relied upon by any theorem). -/
def evictAt {α : Type} (l : List α) (i : Nat) : List α :=
  match l.getLast? with
  | none => []
  | some x => (l.set i x).dropLast

/-- `GrowSlots_`: one more slot on each parallel vector.  The `resize` on
the vector of `intrusive_ptr`s appends a null handle, hence `none` for the
new assigned-work entry; the new subtable is default-constructed and the new
remaining-work entry is value-initialized to `0`. -/
def GrowSlots_ (q : TaskQueue) : TaskQueue :=
  { q with assigned_work_ := q.assigned_work_ ++ [none],
           query_subtables_ := q.query_subtables_ ++ [SubTable.dflt],
           remaining_work_for_query_subtables_ :=
             q.remaining_work_for_query_subtables_ ++ [0],
           tasks_ := q.tasks_ ++ [[]] }

/-- `Evict_(probe_index)`. -/
def Evict_ (probe_index : Nat) (q : TaskQueue) : TaskQueue :=
  { q with assigned_work_ := evictAt q.assigned_work_ probe_index,
           query_subtables_ := evictAt q.query_subtables_ probe_index,
           remaining_work_for_query_subtables_ :=
             evictAt q.remaining_work_for_query_subtables_ probe_index,
           tasks_ := evictAt q.tasks_ probe_index }

/-- `Flush_(probe_index)`: queue a flush request for the slot's subtable,
decrement the imported count, then evict the slot. -/
def Flush_ (probe_index : Nat) (q : TaskQueue) : TaskQueue :=
  Evict_ probe_index
    { q with flush_requests_ :=
               q.flush_requests_ ++ [q.query_subtables_.getD probe_index SubTable.dflt],
             num_imported_query_subtables_ := q.num_imported_query_subtables_ - 1 }

/-- The task built by `PushTask` (and by the checked-out entry's
`PushTask_`): the query subtable, the reference subtable, and the priority
computed by the priority formula. -/
def mkTask (metric : Int → Int → Int) (prank : Int → Int)
    (qs reference_subtable : SubTable) : Task :=
  { querySubtable := qs, referenceSubtable := reference_subtable,
    priority := taskPriority metric prank qs reference_subtable }

/-- `PushTask(world, metric, push_index, reference_subtable)`. -/
def PushTask (metric : Int → Int → Int) (prank : Int → Int)
    (push_index : Nat) (reference_subtable : SubTable) (q : TaskQueue) : TaskQueue :=
  let qs := q.query_subtables_.getD push_index SubTable.dflt
  let new_task : Task := mkTask metric prank qs reference_subtable
  { q with tasks_ := q.tasks_.set push_index
             (heapPush new_task (q.tasks_.getD push_index [])),
           num_remaining_tasks_ := q.num_remaining_tasks_ + 1,
           remaining_local_computation_ :=
             add64 q.remaining_local_computation_ new_task.work }

/-- `PushNewQueue(originating_rank_in, query_subtable_in)`: grow the slots,
alias the received subtable into the last slot, stamp its originating rank,
zero its remaining work, bump the imported count, and return the new slot
index together with the new state. -/
def PushNewQueue (originating_rank_in : Int) (query_subtable_in : SubTable)
    (q : TaskQueue) : Nat × TaskQueue :=
  let q1 := GrowSlots_ q
  let q2 := { q1 with
    query_subtables_ := q1.query_subtables_.dropLast ++
      [{ query_subtable_in with originatingRank := originating_rank_in }],
    remaining_work_for_query_subtables_ :=
      q1.remaining_work_for_query_subtables_.dropLast ++ [0],
    num_imported_query_subtables_ := q1.num_imported_query_subtables_ + 1 }
  (q2.tasks_.length - 1, q2)

/-- `LockQuerySubTable(probe_index, remote_mpi_rank_in)`; the `CheckOut_`
body is Modelled from the spec (query_subtable_lock.h is not under src/):
the slot's four records move into a fresh entry pushed at the front of the
checked-out list, tagged with the remote rank, the slot is evicted from the
active vectors and `num_exported` is incremented. -/
def LockQuerySubTable (probe_index : Nat) (remote_mpi_rank_in : Int)
    (q : TaskQueue) : TaskQueue :=
  let entry : QuerySubTableLock :=
    { query_subtable_ := q.query_subtables_.getD probe_index SubTable.dflt,
      task_ := q.tasks_.getD probe_index [],
      assigned_work_ := q.assigned_work_.getD probe_index none,
      remaining_work_for_query_subtable_ :=
        q.remaining_work_for_query_subtables_.getD probe_index 0,
      locked_mpi_rank_ := remote_mpi_rank_in }
  Evict_ probe_index
    { q with checked_out_query_subtables_ := entry :: q.checked_out_query_subtables_,
             num_exported_query_subtables_ := q.num_exported_query_subtables_ + 1 }

/-- `ReturnQuerySubTable(it)`; the `Return_` body is Modelled from the spec
(query_subtable_lock.h is not under src/): the entry's state moves back into
a new active slot, `num_exported` decreases, and the list node given by the
iterator (here: an index into the list) is erased. -/
def ReturnQuerySubTable (i : Nat) (q : TaskQueue) : TaskQueue :=
  match q.checked_out_query_subtables_.get? i with
  | none => q
  | some e =>
    { q with assigned_work_ := q.assigned_work_ ++ [e.assigned_work_],
             query_subtables_ := q.query_subtables_ ++ [e.query_subtable_],
             remaining_work_for_query_subtables_ :=
               q.remaining_work_for_query_subtables_ ++
                 [e.remaining_work_for_query_subtable_],
             tasks_ := q.tasks_ ++ [e.task_],
             num_exported_query_subtables_ := q.num_exported_query_subtables_ - 1,
             checked_out_query_subtables_ :=
               q.checked_out_query_subtables_.eraseIdx i }

/-- `Synchronize(received_query_subtable_in)`: find the first checked-out
entry whose stored query subtree includes the received one and copy the
received mutable data into it; when the identities match exactly, push the
entry's four records back onto the active vectors, erase it and decrement
`num_exported`; on a strict sub-range the entry stays checked out (the
source's else-branch is empty); when no entry matches, the state is
unchanged. -/
def Synchronize (received : SubTable) (q : TaskQueue) : TaskQueue :=
  match q.checked_out_query_subtables_.findIdx?
      (fun e => e.query_subtable_.includes received) with
  | none => q
  | some i =>
    let e := q.checked_out_query_subtables_.getD i QuerySubTableLock.dflt
    let e2 := { e with query_subtable_ := e.query_subtable_.Copy received }
    if e2.query_subtable_.subtableId = received.subtableId then
      { q with assigned_work_ := q.assigned_work_ ++ [e2.assigned_work_],
               query_subtables_ := q.query_subtables_ ++ [e2.query_subtable_],
               remaining_work_for_query_subtables_ :=
                 q.remaining_work_for_query_subtables_ ++
                   [e2.remaining_work_for_query_subtable_],
               tasks_ := q.tasks_ ++ [e2.task_],
               checked_out_query_subtables_ :=
                 q.checked_out_query_subtables_.eraseIdx i,
               num_exported_query_subtables_ :=
                 q.num_exported_query_subtables_ - 1 }
    else
      { q with checked_out_query_subtables_ :=
                 q.checked_out_query_subtables_.set i e2 }

/-- `top(probe_index)`: `top()` of an empty heap is undefined, hence
`Option`. -/
def top (probe_index : Nat) (q : TaskQueue) : Option Task :=
  (q.tasks_.getD probe_index []).head?

/-- `pop(probe_index)`: subtract the top task's work from the local
computation counter, pop the heap, decrement the task count.  Undefined
(`none`) when the heap is empty, where the C++ `top()` is undefined. -/
def pop (probe_index : Nat) (q : TaskQueue) : Option TaskQueue :=
  match (q.tasks_.getD probe_index []).head? with
  | none => none
  | some t =>
    some { q with
      remaining_local_computation_ :=
        sub64 q.remaining_local_computation_ t.work,
      tasks_ := q.tasks_.set probe_index (q.tasks_.getD probe_index []).tail,
      num_remaining_tasks_ := q.num_remaining_tasks_ - 1 }

/-- `decrement_remaining_local_computation(decrement)`: a plain `unsigned
long` subtraction, wrapping modulo `2 ^ 64`. -/
def decrement_remaining_local_computation (decrement : Nat) (q : TaskQueue) :
    TaskQueue :=
  { q with remaining_local_computation_ :=
             sub64 q.remaining_local_computation_ decrement }

/-- `decrement_remaining_global_computation(decrement)`: a plain `unsigned
long` subtraction, wrapping modulo `2 ^ 64`. -/
def decrement_remaining_global_computation (decrement : Nat) (q : TaskQueue) :
    TaskQueue :=
  { q with remaining_global_computation_ :=
             sub64 q.remaining_global_computation_ decrement }

/-- The scoped `push_completed_computation(comm, reference_count, quantity,
query_subtable_lock)`: subtract the quantity from the global counter, route
the broadcast through the exchange, and subtract the reference count from
the designated checked-out entry's remaining work only. -/
def push_completed_computation_scoped (reference_count_in quantity_in : Nat)
    (i : Nat) (q : TaskQueue) : TaskQueue :=
  let e := q.checked_out_query_subtables_.getD i QuerySubTableLock.dflt
  { q with remaining_global_computation_ :=
             sub64 q.remaining_global_computation_ quantity_in,
           completed_broadcasts_ := q.completed_broadcasts_ ++ [quantity_in],
           checked_out_query_subtables_ :=
             q.checked_out_query_subtables_.set i
               { e with remaining_work_for_query_subtable_ :=
                   sub64 e.remaining_work_for_query_subtable_ reference_count_in } }

/-- The global `push_completed_computation(comm, reference_count,
quantity)`: subtract the quantity from the global counter, route the
broadcast, and subtract the reference count from every active slot's
remaining work. -/
def push_completed_computation (reference_count_in quantity_in : Nat)
    (q : TaskQueue) : TaskQueue :=
  { q with remaining_global_computation_ :=
             sub64 q.remaining_global_computation_ quantity_in,
           completed_broadcasts_ := q.completed_broadcasts_ ++ [quantity_in],
           remaining_work_for_query_subtables_ :=
             q.remaining_work_for_query_subtables_.map
               (fun w => sub64 w reference_count_in) }

/-- The single-slot `DequeueTask(world, probe_index, task_out,
checked_out_query_subtable)`.  The result is `(task written into task_out,
cleaned_up, new state)`; `none` in the first component means `task_out` was
left untouched.  With a non-empty heap: copy the top into `task_out`, pop,
decrement the task count, subtract the task's work from the local counter,
and, when a checkout is requested, lock the slot out to `world.rank()`.
With an empty heap: when the slot is at its origin and its remaining work is
zero, evict and report cleanup; when the slot is imported, flush and report
cleanup; otherwise leave everything unchanged. -/
def DequeueTask (world_rank : Int) (probe_index : Nat) (checkout : Bool)
    (q : TaskQueue) : Option (Task × Nat) × Bool × TaskQueue :=
  match (q.tasks_.getD probe_index []).head? with
  | some t =>
    let q1 := { q with
      tasks_ := q.tasks_.set probe_index (q.tasks_.getD probe_index []).tail,
      num_remaining_tasks_ := q.num_remaining_tasks_ - 1,
      remaining_local_computation_ :=
        sub64 q.remaining_local_computation_ t.work }
    let q2 := if checkout then LockQuerySubTable probe_index world_rank q1 else q1
    (some (t, probe_index), false, q2)
  | none =>
    if (q.query_subtables_.getD probe_index SubTable.dflt).tableRank = world_rank then
      if q.remaining_work_for_query_subtables_.getD probe_index 0 = 0 then
        (none, true, Evict_ probe_index q)
      else (none, false, q)
    else (none, true, Flush_ probe_index q)

/-- The drain loop of `split_subtree_`: while the slot's heap is non-empty,
dequeue (without checkout) and collect the task.  Recursion is by a fuel
value; the caller supplies the heap size, which is exact since every
iteration pops one task. -/
def drainLoop (world_rank : Int) (subtree_index : Nat) :
    Nat → TaskQueue → List Task → List Task × TaskQueue
  | 0, q, acc => (acc, q)
  | fuel + 1, q, acc =>
    if (q.tasks_.getD subtree_index []).length > 0 then
      match DequeueTask world_rank subtree_index false q with
      | (some (t, _), _, q2) => drainLoop world_rank subtree_index fuel q2 (acc ++ [t])
      | (none, _, q2) => (acc, q2)
    else (acc, q)

/-- One iteration of the re-push loop of `split_subtree_`: push the drained
task against the left slot (at `subtree_index`) and against the right slot
(at `query_subtables_.size() - 1`), then lock the reference cache once. -/
def splitPushStep (metric : Int → Int → Int) (prank : Int → Int)
    (subtree_index : Nat) (q : TaskQueue) (t : Task) : TaskQueue :=
  let qa := PushTask metric prank subtree_index t.referenceSubtable q
  let qb := PushTask metric prank (qa.query_subtables_.length - 1)
              t.referenceSubtable qa
  LockCache t.referenceSubtable.cacheBlockId 1 qb

/-- `set_start_node`: replace a subtable's start node. -/
def withStart (sub : SubTable) (n : Tree) : SubTable := { sub with startNode := n }

/-- `split_subtree_(world, metric, subtree_index)`: overwrite the slot's
subtree with its left child, append a new slot aliasing it with the right
child, drain the slot's heap, append a fresh empty heap, a deep copy of the
slot's assigned set and an equal remaining-work entry for the new slot, then
re-push every drained task into both slots, locking the reference cache once
per task.  `none` when the slot's assigned-work handle is null (the C++
would dereference it). -/
def split_subtree_ (world_rank : Int) (metric : Int → Int → Int)
    (prank : Int → Int) (subtree_index : Nat) (q : TaskQueue) :
    Option TaskQueue :=
  let prev_qnode := (q.query_subtables_.getD subtree_index SubTable.dflt)
  let leftSub := withStart prev_qnode prev_qnode.startNode.left
  let rightSub := withStart prev_qnode prev_qnode.startNode.right
  let q1 := { q with query_subtables_ := q.query_subtables_.set subtree_index leftSub }
  let q2 := { q1 with query_subtables_ := q1.query_subtables_ ++ [rightSub] }
  let drained := drainLoop world_rank subtree_index
                   (q2.tasks_.getD subtree_index []).length q2 []
  let q3 := { drained.2 with tasks_ := drained.2.tasks_ ++ [[]] }
  match q3.assigned_work_.getD subtree_index none with
  | none => none
  | some aset =>
    let q4 := { q3 with assigned_work_ := q3.assigned_work_ ++ [some aset] }
    let q5 := { q4 with remaining_work_for_query_subtables_ :=
                  q4.remaining_work_for_query_subtables_ ++
                    [q4.remaining_work_for_query_subtables_.getD subtree_index 0] }
    some (drained.1.foldl (splitPushStep metric prank subtree_index) q5)

/-- The split-candidate scan of `RedistributeAmongCores_`: the index of the
non-leaf slot with the largest query point count among slots with a
non-empty heap, or `none` when no slot qualifies. -/
def splitCandidate (q : TaskQueue) : Option Nat :=
  (List.range q.query_subtables_.length).foldl
    (fun best i =>
      let sub := q.query_subtables_.getD i SubTable.dflt
      if !sub.startNode.isLeaf ∧ (q.tasks_.getD i []).length > 0 ∧
          (match best with
           | none => 0
           | some b => (q.query_subtables_.getD b SubTable.dflt).startNode.count)
            < sub.startNode.count
      then some i else best) none

/-- `RedistributeAmongCores_(world, metric)`: split the candidate slot when
one exists, otherwise change nothing. -/
def RedistributeAmongCores_ (world_rank : Int) (metric : Int → Int → Int)
    (prank : Int → Int) (q : TaskQueue) : Option TaskQueue :=
  match splitCandidate q with
  | none => some q
  | some i => split_subtree_ world_rank metric prank i q

/-- The probe loop of the scanning `DequeueTask`: advance the probe index
while no task has been produced, re-examining the position after a cleanup
(the source decrements and the loop header re-increments the index).  Fuel
bounds the iteration count; `tasks_.length + 1` is always enough because
each iteration either exits, shrinks the vector, or advances the probe. -/
def dequeueLoop (world_rank : Int) (checkout : Bool) :
    Nat → Nat → Option (Task × Nat) → TaskQueue → Option (Task × Nat) × TaskQueue
  | 0, _, acc, q => (acc, q)
  | fuel + 1, probe_index, acc, q =>
    if acc = none ∧ probe_index < q.tasks_.length then
      match DequeueTask world_rank probe_index checkout q with
      | (res, cleaned, q2) =>
        dequeueLoop world_rank checkout fuel
          (if cleaned then probe_index else probe_index + 1)
          (match acc with | none => res | some r => some r) q2
    else (acc, q)

/-- The scanning `DequeueTask(world, thread_id, metric, task_out,
checked_out_query_subtable)`: when the number of heaps is below the number
of threads, try to redistribute among cores first; then scan the slots in
index order for a task.  `none` when the redistribution hit a null
assigned-work handle.  The `thread_id` argument is unused, as in the
source. -/
def DequeueTaskAll (world_rank : Int) (thread_id : Nat)
    (metric : Int → Int → Int) (prank : Int → Int) (checkout : Bool)
    (q : TaskQueue) : Option (Option (Task × Nat) × TaskQueue) :=
  let _ := thread_id
  let step1 : Option TaskQueue :=
    if (q.tasks_.length : Int) < q.num_threads_ then
      RedistributeAmongCores_ world_rank metric prank q
    else some q
  match step1 with
  | none => none
  | some q1 => some (dequeueLoop world_rank checkout (q1.tasks_.length + 1) 0 none q1)

/-- `table_exchange_.FindSubTable(cache_id)`: the subtable resident at the
cache position, if any. -/
def FindSubTable (cache_id : Int) (q : TaskQueue) : Option SubTable :=
  (q.cache_.find? (fun p => p.1 == cache_id)).map (fun p => p.2)

/-- `table_exchange_.FindByBeginCount(begin, count)` on the local table. -/
def FindByBeginCount (reference_begin reference_count : Nat) (q : TaskQueue) :
    Option Tree :=
  (q.local_find_.find? (fun p =>
    p.1 == reference_begin && p.2.1 == reference_count)).map (fun p => p.2.2)

/-- The reference-subtable resolution of `GenerateTasks`: the cached
subtable when resident, otherwise an alias of the local table anchored at
`FindByBeginCount(begin, count)` with the cache block id stamped on.
`none` when the local lookup also fails (the C++ would alias an invalid
node). -/
def resolveReference (reference_begin reference_count : Nat) (cache_id : Int)
    (q : TaskQueue) : Option SubTable :=
  match FindSubTable cache_id q with
  | some st => some st
  | none =>
    (FindByBeginCount reference_begin reference_count q).map (fun tr =>
      { tableRank := q.local_rank_, startNode := tr,
        originatingRank := q.local_rank_, cacheBlockId := cache_id,
        resultStamp := 0 })

/-- The body of the active-slot loop of `GenerateTasks` at slot `j`: when
the slot's query subtree originates from this process and the reference
interval inserts into the slot's assigned set, push a task and lock the
cache once.  `none` when the C++ would dereference a null assigned-work
handle. -/
def genActiveStep (world_rank : Int) (metric : Int → Int → Int)
    (prank : Int → Int) (ref : SubTable) (grid : Interval) (cache_id : Int)
    (j : Nat) (q : TaskQueue) : Option TaskQueue :=
  if (q.query_subtables_.getD j SubTable.dflt).tableRank = world_rank then
    match q.assigned_work_.getD j none with
    | none => none
    | some s =>
      match disInsert s grid with
      | (true, s2) =>
        some (LockCache cache_id 1
          (PushTask metric prank j ref
            { q with assigned_work_ := q.assigned_work_.set j (some s2) }))
      | (false, _) => some q
  else some q

/-- The body of the checked-out loop of `GenerateTasks` at entry `i`; the
entry's `Insert_` and `PushTask_` are Modelled from the spec
(query_subtable_lock.h is not under src/): insert into the entry's own
assigned set and, on success, push into the entry's own heap with the same
priority formula, incrementing the global task count and local-computation
counter, then lock the cache once. -/
def genCheckedStep (metric : Int → Int → Int) (prank : Int → Int)
    (ref : SubTable) (grid : Interval) (cache_id : Int) (i : Nat)
    (q : TaskQueue) : Option TaskQueue :=
  let e := q.checked_out_query_subtables_.getD i QuerySubTableLock.dflt
  match e.assigned_work_ with
  | none => none
  | some s =>
    match disInsert s grid with
    | (true, s2) =>
      let new_task : Task := mkTask metric prank e.query_subtable_ ref
      some (LockCache cache_id 1
        { q with checked_out_query_subtables_ :=
                   q.checked_out_query_subtables_.set i
                     { e with assigned_work_ := some s2,
                              task_ := heapPush new_task e.task_ },
                 num_remaining_tasks_ := q.num_remaining_tasks_ + 1,
                 remaining_local_computation_ :=
                   add64 q.remaining_local_computation_ new_task.work })
    | (false, _) => some q

/-- Runs an indexed loop body over a list of indices, threading the state
and propagating undefinedness. -/
def stepListM (f : Nat → TaskQueue → Option TaskQueue) :
    List Nat → TaskQueue → Option TaskQueue
  | [], q => some q
  | j :: js, q =>
    match f j q with
    | none => none
    | some q2 => stepListM f js q2

/-- `GenerateTasks` for one received reference id `(owner, begin, count,
cache_id)`: resolve the reference subtable, build the interval keyed by the
resolved table's rank, then run the active-slot loop over the slots in
index order and the checked-out loop over the entries in list order. -/
def GenerateTasksOne (world_rank : Int) (metric : Int → Int → Int)
    (prank : Int → Int) (id : Int × Nat × Nat × Int) (q : TaskQueue) :
    Option TaskQueue :=
  match resolveReference id.2.1 id.2.2.1 id.2.2.2 q with
  | none => none
  | some ref =>
    let grid : Interval := (ref.tableRank, id.2.1, id.2.1 + id.2.2.1)
    match stepListM
        (genActiveStep world_rank metric prank ref grid id.2.2.2)
        (List.range q.query_subtables_.length) q with
    | none => none
    | some qa =>
      stepListM (genCheckedStep metric prank ref grid id.2.2.2)
        (List.range qa.checked_out_query_subtables_.length) qa

/-- `GenerateTasks(world, metric, received_subtable_ids)`. -/
def GenerateTasks (world_rank : Int) (metric : Int → Int → Int)
    (prank : Int → Int) (ids : List (Int × Nat × Nat × Int)) (q : TaskQueue) :
    Option TaskQueue :=
  match ids with
  | [] => some q
  | id :: rest =>
    match GenerateTasksOne world_rank metric prank id q with
    | none => none
    | some q2 => GenerateTasks world_rank metric prank rest q2

/-- The heap scan shared by `CheckIntegrity` and `Print` over one heap:
both take the address of `top()` before examining the size, so an empty
heap is undefined (`none`); otherwise the scan reports whether any task's
reference subtable id equals the probed id (the spec fixes that no property
depends on the scan order). -/
def scanHeap (destruct_id : Int × Nat × Nat) (h : TaskHeap) : Option Bool :=
  match h.head? with
  | none => none
  | some _ => some (h.any (fun t => t.referenceSubtable.subtableId = destruct_id))

/-- All task heaps of the state: the active slots' heaps followed by the
checked-out entries' heaps, in the orders both scans use. -/
def allHeaps (q : TaskQueue) : List TaskHeap :=
  q.tasks_ ++ q.checked_out_query_subtables_.map (fun e => e.task_)

/-- `CheckIntegrity(destruct_id)` as a total function: scan the active
heaps then the checked-out heaps, stopping at the first heap containing a
matching task; each scanned heap has its `top()` taken first, so scanning
an empty heap is undefined. -/
def CheckIntegrityOpt (destruct_id : Int × Nat × Nat) (q : TaskQueue) :
    Option Bool :=
  (allHeaps q).foldlM (fun flag h =>
    if flag then some true else scanHeap destruct_id h) false

/-- `Print()` as a total function: its observable partiality only.  The
print loops take the address of `top()` of every active heap and of every
checked-out heap unconditionally, so the operation is well-defined iff
every heap is non-empty. -/
def PrintOpt (q : TaskQueue) : Option Unit :=
  (allHeaps q).foldlM (fun _ h => h.head?.map (fun _ => ())) ()

/-- `Init(world, ...)` restricted to its observable state: the frontier
partition of the local query tree arrives as the list `qsubs` (the
partitioning primitive is external to the queue); every slot starts with an
empty heap, a freshly allocated empty assigned set and a remaining work
equal to the global reference point count; the global counter starts at the
product of the global point counts and the local counters at zero. -/
def InitQueue (num_threads_in : Int) (qsubs : List SubTable)
    (total_num_query_points total_num_reference_points : Nat)
    (cache : List (Int × SubTable)) (local_find : List (Nat × Nat × Tree))
    (local_rank : Int) : TaskQueue :=
  { assigned_work_ := qsubs.map (fun _ => some []),
    checked_out_query_subtables_ := [],
    num_exported_query_subtables_ := 0,
    num_imported_query_subtables_ := 0,
    num_remaining_tasks_ := 0,
    num_threads_ := num_threads_in,
    query_subtables_ := qsubs,
    remaining_work_for_query_subtables_ :=
      qsubs.map (fun _ => total_num_reference_points),
    tasks_ := qsubs.map (fun _ => []),
    remaining_global_computation_ :=
      (total_num_query_points * total_num_reference_points) % M64,
    remaining_local_computation_ := 0,
    cache_ := cache, local_find_ := local_find, local_rank_ := local_rank,
    cache_locks_ := [], flush_requests_ := [], completed_broadcasts_ := [] }

/-! ### General list and counter lemmas -/

theorem lt_length_of_getD_ne {α : Type} {l : List α} {d : α} {i : Nat}
    (h : l.getD i d ≠ d) : i < l.length := by
  by_contra hc
  exact h (List.getD_eq_default l d (Nat.le_of_not_lt hc))

theorem getD_set_self {α : Type} (l : List α) (i : Nat) (x d : α)
    (h : i < l.length) : (l.set i x).getD i d = x := by
  simp [List.getD_eq_getElem?_getD, List.getElem?_set_self h]

theorem getD_set_ne {α : Type} (l : List α) {i j : Nat} (x d : α) (h : i ≠ j) :
    (l.set i x).getD j d = l.getD j d := by
  simp [List.getD_eq_getElem?_getD, List.getElem?_set_ne h]

theorem set_getD_self {α : Type} {l : List α} {i : Nat} (d : α)
    (h : i < l.length) : l.set i (l.getD i d) = l := by
  induction l generalizing i with
  | nil => simp at h
  | cons x xs ih =>
    cases i with
    | zero => simp
    | succ n =>
      simp only [List.getD_cons_succ, List.set]
      rw [ih (by simpa using h)]

theorem getD_append_left {α : Type} (l l2 : List α) (d : α) {n : Nat}
    (h : n < l.length) : (l ++ l2).getD n d = l.getD n d :=
  List.getD_append l l2 d n h

theorem getD_append_right {α : Type} (l l2 : List α) (d : α) (k : Nat) :
    (l ++ l2).getD (l.length + k) d = l2.getD k d := by
  simp [List.getD_eq_getElem?_getD, List.getElem?_append]

theorem getLast_eq_getD {α : Type} (l : List α) (h : l ≠ []) (d : α) :
    l.getLast h = l.getD (l.length - 1) d := by
  rw [List.getLast_eq_getElem, List.getD_eq_getElem?_getD,
      List.getElem?_eq_getElem (by
        have : 0 < l.length := List.length_pos.mpr h
        omega)]
  rfl

theorem sumMap_set {α : Type} (f : α → Nat) (l : List α) (i : Nat) (x d : α)
    (h : i < l.length) :
    ((l.set i x).map f).sum + f (l.getD i d) = (l.map f).sum + f x := by
  induction l generalizing i with
  | nil => simp at h
  | cons y ys ih =>
    cases i with
    | zero => simp; omega
    | succ n =>
      simp only [List.set, List.map_cons, List.sum_cons, List.getD_cons_succ]
      have := ih n (by simpa using h)
      omega

theorem sumMap_dropLast {α : Type} (f : α → Nat) (l : List α) (h : l ≠ []) :
    (l.dropLast.map f).sum + f (l.getLast h) = (l.map f).sum := by
  conv_rhs => rw [← List.dropLast_append_getLast h]
  simp

theorem evictAt_eq {α : Type} (l : List α) (i : Nat) (d : α) (h : l ≠ []) :
    evictAt l i = (l.set i (l.getD (l.length - 1) d)).dropLast := by
  unfold evictAt
  rw [List.getLast?_eq_getLast l h, getLast_eq_getD l h d]

theorem length_evictAt {α : Type} (l : List α) (i : Nat) :
    (evictAt l i).length = l.length - 1 := by
  cases l with
  | nil => rfl
  | cons x xs =>
    rw [evictAt_eq (x :: xs) i x (by simp)]
    simp

theorem sumMap_evictAt {α : Type} (f : α → Nat) (l : List α) (i : Nat) (d : α)
    (h : i < l.length) :
    ((evictAt l i).map f).sum + f (l.getD i d) = (l.map f).sum := by
  have hne : l ≠ [] := by
    intro e; subst e; simp at h
  have hlen0 : 0 < l.length := List.length_pos.mpr hne
  rw [evictAt_eq l i d hne]
  have hmne : l.set i (l.getD (l.length - 1) d) ≠ [] := by
    intro e
    have h0 : (l.set i (l.getD (l.length - 1) d)).length = 0 := by rw [e]; rfl
    rw [List.length_set] at h0
    omega
  have hmlast : (l.set i (l.getD (l.length - 1) d)).getLast hmne =
      l.getD (l.length - 1) d := by
    rw [getLast_eq_getD _ hmne d, List.length_set]
    by_cases hc : i = l.length - 1
    · rw [← hc]
      exact getD_set_self l i (l.getD i d) d h
    · rw [getD_set_ne _ _ _ hc]
  have h1 := sumMap_dropLast f (l.set i (l.getD (l.length - 1) d)) hmne
  rw [hmlast] at h1
  have h2 := sumMap_set f l i (l.getD (l.length - 1) d) d h
  omega

theorem sub64_exact {a b : Nat} (hba : b ≤ a) (ha : a < M64) :
    sub64 a b = a - b := by
  unfold sub64 M64 at *
  omega

theorem sub64_mod (T w : Nat) (h : w ≤ T) :
    sub64 (T % M64) w = (T - w) % M64 := by
  unfold sub64 M64
  omega

theorem add64_mod (T w : Nat) : add64 (T % M64) w = (T + w) % M64 := by
  unfold add64 M64
  omega

theorem length_heapPush (t : Task) (h : TaskHeap) :
    (heapPush t h).length = h.length + 1 := by
  induction h with
  | nil => rfl
  | cons x xs ih =>
    unfold heapPush
    split
    · rfl
    · simp [ih]

theorem sumMap_heapPush (f : Task → Nat) (t : Task) (h : TaskHeap) :
    ((heapPush t h).map f).sum = f t + (h.map f).sum := by
  induction h with
  | nil => simp [heapPush]
  | cons x xs ih =>
    unfold heapPush
    split
    · simp
    · simp [ih]
      omega

/-! ### Concrete sample states used by witnesses and counterexamples -/

def exMetric : Int → Int → Int := fun a b => a + b

def exPrank : Int → Int := fun r => r

def exQTree : Tree := .node 0 2 10 (.leaf 0 1 11) (.leaf 1 1 12)

def exQSub : SubTable :=
  { tableRank := 0, startNode := exQTree, originatingRank := 0,
    cacheBlockId := -1, resultStamp := 0 }

def exRefSub : SubTable :=
  { tableRank := 0, startNode := .leaf 0 3 20, originatingRank := 0,
    cacheBlockId := 42, resultStamp := 0 }

def exQ0 : TaskQueue := InitQueue 1 [exQSub] 2 3 [(42, exRefSub)] [] 0

def exQ1 : TaskQueue :=
  (GenerateTasks 0 exMetric exPrank [(0, 0, 3, 42)] exQ0).getD exQ0

def exQ3 : TaskQueue :=
  push_completed_computation 3 6 (DequeueTask 0 0 false exQ1).2.2

def exQ4 : TaskQueue := PushTask exMetric exPrank 0 exRefSub exQ0

def exQ5 : TaskQueue :=
  { exQ1 with query_subtables_ := exQ1.query_subtables_ ++ [exQSub],
              tasks_ := exQ1.tasks_ ++ [[]],
              assigned_work_ := exQ1.assigned_work_ ++ [some []],
              remaining_work_for_query_subtables_ :=
                exQ1.remaining_work_for_query_subtables_ ++ [3] }

def exEntry : QuerySubTableLock :=
  { query_subtable_ := exQSub, task_ := [], assigned_work_ := some [],
    remaining_work_for_query_subtable_ := 3, locked_mpi_rank_ := 1 }

def exQ6 : TaskQueue :=
  { exQ0 with checked_out_query_subtables_ := [exEntry],
              num_exported_query_subtables_ := 1 }

def exRecvFar : SubTable := { exQSub with startNode := .leaf 5 2 0 }

/-! ### C8 : PushNewQueue -/

/-- Counterexample to claim C8 as stated: the slot appended by
`PushNewQueue` does not carry an empty assigned interval set; the vector
`resize` in `GrowSlots_` appends a null (unallocated) handle, which is never
assigned afterwards. -/
theorem C8_counterexample :
    ¬ ((PushNewQueue 1 exRefSub exQ0).2.assigned_work_ =
        exQ0.assigned_work_ ++ [some []]) := by decide

/-- Claim C8 (amended): `push_new_queue(r, q)` appends exactly one new
active slot aliasing `q` with its origin marked `r`, remaining work `0`, an
empty task heap and a null (unallocated) assigned-work handle; it
increments `num_imported` by one and returns the index of the newly
appended slot, leaving all pre-existing slots and every other field
unchanged. -/
theorem C8_push_new_queue (r : Int) (qin : SubTable) (q : TaskQueue) :
    (PushNewQueue r qin q).2.query_subtables_ =
        q.query_subtables_ ++ [{ qin with originatingRank := r }] ∧
    (PushNewQueue r qin q).2.tasks_ = q.tasks_ ++ [[]] ∧
    (PushNewQueue r qin q).2.assigned_work_ = q.assigned_work_ ++ [none] ∧
    (PushNewQueue r qin q).2.remaining_work_for_query_subtables_ =
        q.remaining_work_for_query_subtables_ ++ [0] ∧
    (PushNewQueue r qin q).2.num_imported_query_subtables_ =
        q.num_imported_query_subtables_ + 1 ∧
    (PushNewQueue r qin q).1 = q.tasks_.length ∧
    (PushNewQueue r qin q).2.checked_out_query_subtables_ =
        q.checked_out_query_subtables_ ∧
    (PushNewQueue r qin q).2.num_exported_query_subtables_ =
        q.num_exported_query_subtables_ ∧
    (PushNewQueue r qin q).2.num_remaining_tasks_ = q.num_remaining_tasks_ ∧
    (PushNewQueue r qin q).2.remaining_local_computation_ =
        q.remaining_local_computation_ ∧
    (PushNewQueue r qin q).2.remaining_global_computation_ =
        q.remaining_global_computation_ ∧
    (PushNewQueue r qin q).2.cache_locks_ = q.cache_locks_ ∧
    (PushNewQueue r qin q).2.flush_requests_ = q.flush_requests_ := by
  refine ⟨?_, ?_, ?_, ?_, ?_, ?_, ?_, ?_, ?_, ?_, ?_, ?_, ?_⟩ <;>
    simp [PushNewQueue, GrowSlots_, List.dropLast_concat]

/-! ### C9 : fatal invariant violations are not aborts in the code -/

/-- Claim C9 is refuted by the code: at the failing inputs, the embedded
operations are total and continue silently instead of aborting.  A
decrement that would take `remaining_local` (or `remaining_global`) below
zero wraps the unsigned counter around to `2 ^ 64 - 1`, and a
`synchronize` whose received subtree is covered by no checked-out entry
returns with the state entirely unchanged. -/
theorem C9_violations_not_fatal :
    (decrement_remaining_local_computation 1
        { exQ0 with remaining_local_computation_ := 0 }
      ).remaining_local_computation_ = 2 ^ 64 - 1 ∧
    (decrement_remaining_global_computation 7
        { exQ0 with remaining_global_computation_ := 6 }
      ).remaining_global_computation_ = 2 ^ 64 - 1 ∧
    Synchronize exRecvFar exQ6 = exQ6 := by
  refine ⟨?_, ?_, ?_⟩ <;> decide

/-! ### C3 : single-slot dequeue on an empty heap -/

/-- Claim C3: for every state in which slot `s` has an empty task heap: if
`s`'s query subtree originates from this process and its remaining work is
zero, the single-slot dequeue evicts `s` by swap-with-last (the last slot's
four parallel records overwrite position `s` and the tails are popped) and
returns `true`; if `s` is imported, it queues a flush request to the
exchange collaborator, decrements `num_imported`, evicts `s`, and returns
`true`; otherwise it returns `false` and leaves all state unchanged. -/
theorem C3_dequeue_empty_heap (world_rank : Int) (co : Bool) (q : TaskQueue)
    (s : Nat) (hs : s < q.tasks_.length)
    (hlen : q.query_subtables_.length = q.tasks_.length ∧
            q.assigned_work_.length = q.tasks_.length ∧
            q.remaining_work_for_query_subtables_.length = q.tasks_.length)
    (hempty : q.tasks_.getD s [] = []) :
    (((q.query_subtables_.getD s SubTable.dflt).tableRank = world_rank ∧
        q.remaining_work_for_query_subtables_.getD s 0 = 0) →
      DequeueTask world_rank s co q = (none, true, Evict_ s q)) ∧
    ((q.query_subtables_.getD s SubTable.dflt).tableRank ≠ world_rank →
      DequeueTask world_rank s co q = (none, true, Flush_ s q) ∧
      (Flush_ s q).flush_requests_ =
        q.flush_requests_ ++ [q.query_subtables_.getD s SubTable.dflt] ∧
      (Flush_ s q).num_imported_query_subtables_ =
        q.num_imported_query_subtables_ - 1) ∧
    (((q.query_subtables_.getD s SubTable.dflt).tableRank = world_rank ∧
        q.remaining_work_for_query_subtables_.getD s 0 ≠ 0) →
      DequeueTask world_rank s co q = (none, false, q)) ∧
    (Evict_ s q).tasks_ =
      (q.tasks_.set s (q.tasks_.getD (q.tasks_.length - 1) [])).dropLast ∧
    (Evict_ s q).query_subtables_ =
      (q.query_subtables_.set s
        (q.query_subtables_.getD (q.query_subtables_.length - 1) SubTable.dflt)
      ).dropLast ∧
    (Evict_ s q).assigned_work_ =
      (q.assigned_work_.set s
        (q.assigned_work_.getD (q.assigned_work_.length - 1) none)).dropLast ∧
    (Evict_ s q).remaining_work_for_query_subtables_ =
      (q.remaining_work_for_query_subtables_.set s
        (q.remaining_work_for_query_subtables_.getD
          (q.remaining_work_for_query_subtables_.length - 1) 0)).dropLast := by
  obtain ⟨hl1, hl2, hl3⟩ := hlen
  have htne : q.tasks_ ≠ [] := by
    intro e; rw [e] at hs; simp at hs
  have hqne : q.query_subtables_ ≠ [] := by
    intro e; rw [e] at hl1; simp at hl1; omega
  have hane : q.assigned_work_ ≠ [] := by
    intro e; rw [e] at hl2; simp at hl2; omega
  have hrne : q.remaining_work_for_query_subtables_ ≠ [] := by
    intro e; rw [e] at hl3; simp at hl3; omega
  simp only [List.getD_eq_getElem?_getD] at hempty
  refine ⟨?_, ?_, ?_, ?_, ?_, ?_, ?_⟩
  · intro ⟨h1, h2⟩
    simp only [List.getD_eq_getElem?_getD] at h1 h2
    simp [DequeueTask, hempty, h1, h2]
  · intro h1
    simp only [List.getD_eq_getElem?_getD] at h1
    refine ⟨?_, ?_, ?_⟩
    · simp [DequeueTask, hempty, h1]
    · simp [Flush_, Evict_]
    · simp [Flush_, Evict_]
  · intro ⟨h1, h2⟩
    simp only [List.getD_eq_getElem?_getD] at h1 h2
    simp [DequeueTask, hempty, h1, h2]
  · simp [Evict_, evictAt_eq q.tasks_ s ([] : TaskHeap) htne]
  · simp [Evict_, evictAt_eq q.query_subtables_ s SubTable.dflt hqne]
  · simp [Evict_, evictAt_eq q.assigned_work_ s none hane]
  · simp [Evict_,
      evictAt_eq q.remaining_work_for_query_subtables_ s 0 hrne]

/-- Witness for C3: in the sample state reached after the single task was
dequeued and its completed computation pushed, slot 0 is at-origin with
zero remaining work, so the next single-slot dequeue evicts it and reports
a cleanup. -/
theorem C3_witness :
    DequeueTask 0 0 false exQ3 = (none, true, Evict_ 0 exQ3) :=
  (C3_dequeue_empty_heap 0 false exQ3 0 (by decide)
      ⟨by decide, by decide, by decide⟩ (by decide)).1 ⟨by decide, by decide⟩

/-! ### C7 : push_completed_computation, global and scoped forms -/

/-- Claim C7: the global `push_completed_computation(world, reference_count,
quantity)` decreases `remaining_global` by exactly `quantity`, decreases the
`remaining_work` of every active slot by exactly `reference_count`, leaves
every checked-out entry untouched and hands the quantity to the exchange
collaborator; the scoped form decreases `remaining_global` by `quantity`,
decreases only the designated checked-out entry's remaining work by
`reference_count`, leaves every active slot untouched and routes the same
broadcast.  (Exactness of the decrements holds on in-range counters, where
the unsigned arithmetic cannot wrap.) -/
theorem C7_push_completed_computation (rc qty : Nat) (q : TaskQueue) (i : Nat)
    (h1 : qty ≤ q.remaining_global_computation_)
    (h2 : q.remaining_global_computation_ < M64)
    (h3 : ∀ w ∈ q.remaining_work_for_query_subtables_, rc ≤ w ∧ w < M64)
    (h5 : rc ≤ (q.checked_out_query_subtables_.getD i
            QuerySubTableLock.dflt).remaining_work_for_query_subtable_)
    (h6 : (q.checked_out_query_subtables_.getD i
            QuerySubTableLock.dflt).remaining_work_for_query_subtable_ < M64) :
    (push_completed_computation rc qty q).remaining_global_computation_ =
        q.remaining_global_computation_ - qty ∧
    (push_completed_computation rc qty q).completed_broadcasts_ =
        q.completed_broadcasts_ ++ [qty] ∧
    (push_completed_computation rc qty q).remaining_work_for_query_subtables_ =
        q.remaining_work_for_query_subtables_.map (fun w => w - rc) ∧
    (push_completed_computation rc qty q).checked_out_query_subtables_ =
        q.checked_out_query_subtables_ ∧
    (push_completed_computation rc qty q).remaining_local_computation_ =
        q.remaining_local_computation_ ∧
    (push_completed_computation_scoped rc qty i q
      ).remaining_global_computation_ =
        q.remaining_global_computation_ - qty ∧
    (push_completed_computation_scoped rc qty i q).completed_broadcasts_ =
        q.completed_broadcasts_ ++ [qty] ∧
    (push_completed_computation_scoped rc qty i q
      ).remaining_work_for_query_subtables_ =
        q.remaining_work_for_query_subtables_ ∧
    (push_completed_computation_scoped rc qty i q).checked_out_query_subtables_ =
        q.checked_out_query_subtables_.set i
          { q.checked_out_query_subtables_.getD i QuerySubTableLock.dflt with
            remaining_work_for_query_subtable_ :=
              (q.checked_out_query_subtables_.getD i
                QuerySubTableLock.dflt).remaining_work_for_query_subtable_ - rc } ∧
    (push_completed_computation_scoped rc qty i q
      ).remaining_local_computation_ = q.remaining_local_computation_ := by
  simp only [List.getD_eq_getElem?_getD] at h5 h6
  refine ⟨?_, rfl, ?_, rfl, rfl, ?_, rfl, rfl, ?_, rfl⟩
  · simp [push_completed_computation, sub64_exact h1 h2]
  · simp only [push_completed_computation]
    exact List.map_congr_left (fun w hw => sub64_exact (h3 w hw).1 (h3 w hw).2)
  · simp [push_completed_computation_scoped, sub64_exact h1 h2]
  · simp [push_completed_computation_scoped, sub64_exact h5 h6]

/-- Witness for C7 at the sample state with one active slot (remaining work
3) and one checked-out entry (remaining work 3). -/
theorem C7_witness :
    (push_completed_computation 3 6 exQ6).remaining_global_computation_ = 0 ∧
    (push_completed_computation 3 6 exQ6).remaining_work_for_query_subtables_ =
      [0] ∧
    (push_completed_computation_scoped 3 6 0 exQ6).checked_out_query_subtables_ =
      [{ exEntry with remaining_work_for_query_subtable_ := 0 }] := by
  have h := C7_push_completed_computation 3 6 exQ6 0 (by decide) (by decide)
    (by decide) (by decide) (by decide)
  refine ⟨?_, ?_, ?_⟩
  · rw [h.1]; decide
  · rw [h.2.2.1]; decide
  · rw [h.2.2.2.2.2.2.2.2.1]; decide

/-! ### C10 : CheckIntegrity and Print heap-top access -/

theorem ciFold_isSome (d : Int × Nat × Nat) :
    ∀ (l : List TaskHeap) (b : Bool), (∀ h ∈ l, h ≠ []) →
    ((l.foldlM (fun (flag : Bool) (h : TaskHeap) =>
        if flag then some true else scanHeap d h) b).isSome = true) := by
  intro l
  induction l with
  | nil => intro b _; simp
  | cons x xs ih =>
    intro b hb
    have hx : x ≠ [] := hb x (by simp)
    obtain ⟨y, ys, rfl⟩ := List.exists_cons_of_ne_nil hx
    have hxs : ∀ h ∈ xs, h ≠ [] := fun h hh => hb h (by simp [hh])
    cases b with
    | true => simpa [List.foldlM_cons] using ih true hxs
    | false => simpa [List.foldlM_cons, scanHeap] using ih _ hxs

theorem printFold_isSome :
    ∀ l : List TaskHeap, (∀ h ∈ l, h ≠ []) →
    ((l.foldlM (fun (_ : Unit) (h : TaskHeap) =>
        h.head?.map (fun _ => ())) ()).isSome = true) := by
  intro l
  induction l with
  | nil => intro _; simp
  | cons x xs ih =>
    intro hb
    have hx : x ≠ [] := hb x (by simp)
    obtain ⟨y, ys, rfl⟩ := List.exists_cons_of_ne_nil hx
    simpa [List.foldlM_cons] using ih (fun h hh => hb h (by simp [hh]))

theorem printFold_none :
    ∀ l : List TaskHeap, (∃ h ∈ l, h = []) →
    (l.foldlM (fun (_ : Unit) (h : TaskHeap) =>
        h.head?.map (fun _ => ())) ()) = none := by
  intro l
  induction l with
  | nil => intro h; simp at h
  | cons x xs ih =>
    intro hb
    by_cases hx : x = []
    · subst hx; simp [List.foldlM_cons]
    · obtain ⟨y, ys, rfl⟩ := List.exists_cons_of_ne_nil hx
      obtain ⟨h2, hh2, he2⟩ := hb
      have hxs : ∃ h ∈ xs, h = [] := by
        rcases List.mem_cons.mp hh2 with h | h
        · rw [h] at he2; exact absurd he2 (by simp)
        · exact ⟨h2, h, he2⟩
      simpa [List.foldlM_cons] using ih hxs

/-- Counterexample to claim C10 as stated: a state whose slot 0 heap holds
a task matching the probe and whose slot 1 heap is empty: `CheckIntegrity`
stops scanning at the first match, never touches the empty heap's `top()`,
and completes with `true`, against the claim that any state with an empty
heap makes it access the top of an empty heap. -/
theorem C10_counterexample :
    (∃ h ∈ allHeaps exQ5, h = []) ∧
    CheckIntegrityOpt (0, 0, 3) exQ5 = some true := by
  refine ⟨?_, ?_⟩ <;> decide

/-- Claim C10 (amended): `CheckIntegrity` and `Print` take the address of
`top()` of each task heap they scan before examining the heap's size.
`Print` scans every active and checked-out heap unconditionally, so in a
total embedding it is `none` on any state with an empty heap and both
operations are well-defined whenever every heap is non-empty;
`CheckIntegrity` stops scanning at the first heap containing a match, so
it hits an empty `top()` only when an empty heap is scanned before a match
is found. -/
theorem C10_scan_well_defined :
    (∀ (q : TaskQueue) (d : Int × Nat × Nat),
        (∀ h ∈ allHeaps q, h ≠ []) →
        (CheckIntegrityOpt d q).isSome = true ∧ (PrintOpt q).isSome = true) ∧
    (∀ q : TaskQueue, (∃ h ∈ allHeaps q, h = []) → PrintOpt q = none) := by
  refine ⟨fun q d hq => ⟨?_, ?_⟩, fun q hq => ?_⟩
  · exact ciFold_isSome d (allHeaps q) false hq
  · exact printFold_isSome (allHeaps q) hq
  · exact printFold_none (allHeaps q) hq

/-- Witness for the amended C10: in the sample one-task state every heap is
non-empty and both scans are defined; in the freshly initialized state the
single heap is empty and `Print` is undefined. -/
theorem C10_witness :
    (CheckIntegrityOpt (0, 0, 3) exQ1).isSome = true ∧ PrintOpt exQ0 = none :=
  ⟨(C10_scan_well_defined.1 exQ1 (0, 0, 3) (by decide)).1,
   C10_scan_well_defined.2 exQ0 (by decide)⟩

/-! ### Characterizations of the pop branch, the drain loop and the re-push
loop, shared by the dequeue, split and accounting claims. -/

/-- The pop branch of the single-slot `DequeueTask` when the heap at the
probed slot is non-empty. -/
theorem DequeueTask_pop (wr : Int) (s : Nat) (co : Bool) (q : TaskQueue)
    (t : Task) (rest : TaskHeap) (hh : q.tasks_.getD s [] = t :: rest) :
    DequeueTask wr s co q =
      (some (t, s), false,
        if co then
          LockQuerySubTable s wr
            { q with tasks_ := q.tasks_.set s rest,
                     num_remaining_tasks_ := q.num_remaining_tasks_ - 1,
                     remaining_local_computation_ :=
                       sub64 q.remaining_local_computation_ t.work }
        else
          { q with tasks_ := q.tasks_.set s rest,
                   num_remaining_tasks_ := q.num_remaining_tasks_ - 1,
                   remaining_local_computation_ :=
                     sub64 q.remaining_local_computation_ t.work }) := by
  simp only [DequeueTask, hh, List.head?_cons, List.tail_cons]

/-- Draining a slot with `drainLoop` and fuel equal to the heap size pops
every task of the heap in heap order, empties the slot's heap, decrements
the task counter by the heap size and subtracts each popped task's work
from the local-computation counter. -/
theorem drainLoop_spec (wr : Int) (s : Nat) (h : TaskHeap) :
    ∀ (q : TaskQueue) (acc : List Task),
    q.tasks_.getD s [] = h → s < q.tasks_.length →
    drainLoop wr s h.length q acc =
      (acc ++ h,
       { q with tasks_ := q.tasks_.set s [],
                num_remaining_tasks_ :=
                  q.num_remaining_tasks_ - (h.length : Int),
                remaining_local_computation_ :=
                  h.foldl (fun r t => sub64 r t.work)
                    q.remaining_local_computation_ }) := by
  induction h with
  | nil =>
    intro q acc hh hs
    have hset : q.tasks_.set s [] = q.tasks_ := by
      rw [← hh]; exact set_getD_self [] hs
    simp [drainLoop, hset]
  | cons t rest ih =>
    intro q acc hh hs
    have hstep := DequeueTask_pop wr s false q t rest hh
    have hg : (q.tasks_.getD s []).length > 0 := by rw [hh]; simp
    have hh2 : (q.tasks_.set s rest).getD s [] = rest :=
      getD_set_self _ _ _ _ hs
    have hs2 : s < (q.tasks_.set s rest).length := by simpa using hs
    have hun : drainLoop wr s (rest.length + 1) q acc =
        drainLoop wr s rest.length
          { q with tasks_ := q.tasks_.set s rest,
                   num_remaining_tasks_ := q.num_remaining_tasks_ - 1,
                   remaining_local_computation_ :=
                     sub64 q.remaining_local_computation_ t.work }
          (acc ++ [t]) := by
      rw [drainLoop, if_pos hg, hstep]
      rfl
    rw [show (t :: rest).length = rest.length + 1 from rfl, hun,
        ih { q with
             tasks_ := q.tasks_.set s rest,
             num_remaining_tasks_ := q.num_remaining_tasks_ - 1,
             remaining_local_computation_ :=
               sub64 q.remaining_local_computation_ t.work }
          (acc ++ [t]) hh2 hs2]
    simp only [List.set_set, List.append_assoc, List.cons_append,
      List.nil_append, List.foldl_cons, List.length_cons]
    refine congrArg _ ?_
    have hnum : q.num_remaining_tasks_ - 1 - (rest.length : Int) =
        q.num_remaining_tasks_ - ((rest.length : Int) + 1) := by omega
    simp [hnum]

/-- The re-push loop of `split_subtree_` leaves the parallel vectors other
than the heaps alone, preserves the heap vector's length and the
checked-out list, and touches no exchange field except the lock log. -/
theorem splitPush_fold_shape (metric : Int → Int → Int) (prank : Int → Int)
    (s : Nat) :
    ∀ (ts : List Task) (q : TaskQueue),
    (ts.foldl (splitPushStep metric prank s) q).query_subtables_ =
        q.query_subtables_ ∧
    (ts.foldl (splitPushStep metric prank s) q).assigned_work_ =
        q.assigned_work_ ∧
    (ts.foldl (splitPushStep metric prank s) q
      ).remaining_work_for_query_subtables_ =
        q.remaining_work_for_query_subtables_ ∧
    (ts.foldl (splitPushStep metric prank s) q).tasks_.length =
        q.tasks_.length ∧
    (ts.foldl (splitPushStep metric prank s) q).checked_out_query_subtables_ =
        q.checked_out_query_subtables_ ∧
    (ts.foldl (splitPushStep metric prank s) q).cache_ = q.cache_ ∧
    (ts.foldl (splitPushStep metric prank s) q).flush_requests_ =
        q.flush_requests_ := by
  intro ts
  induction ts with
  | nil => intro q; exact ⟨rfl, rfl, rfl, rfl, rfl, rfl, rfl⟩
  | cons t ts ih =>
    intro q
    simp only [List.foldl_cons]
    obtain ⟨a1, a2, a3, a4, a5, a6, a7⟩ :=
      ih (splitPushStep metric prank s q t)
    refine ⟨?_, ?_, ?_, ?_, ?_, ?_, ?_⟩ <;>
      first
        | (rw [a1]; simp [splitPushStep, PushTask, LockCache])
        | (rw [a2]; simp [splitPushStep, PushTask, LockCache])
        | (rw [a3]; simp [splitPushStep, PushTask, LockCache])
        | (rw [a4]; simp [splitPushStep, PushTask, LockCache])
        | (rw [a5]; simp [splitPushStep, PushTask, LockCache])
        | (rw [a6]; simp [splitPushStep, PushTask, LockCache])
        | (rw [a7]; simp [splitPushStep, PushTask, LockCache])

theorem splitPush_fold_qs (metric : Int → Int → Int) (prank : Int → Int)
    (s : Nat) (ts : List Task) (q : TaskQueue) :
    (ts.foldl (splitPushStep metric prank s) q).query_subtables_ =
      q.query_subtables_ :=
  (splitPush_fold_shape metric prank s ts q).1

theorem splitPush_fold_assigned (metric : Int → Int → Int)
    (prank : Int → Int) (s : Nat) (ts : List Task) (q : TaskQueue) :
    (ts.foldl (splitPushStep metric prank s) q).assigned_work_ =
      q.assigned_work_ :=
  (splitPush_fold_shape metric prank s ts q).2.1

theorem splitPush_fold_rw (metric : Int → Int → Int) (prank : Int → Int)
    (s : Nat) (ts : List Task) (q : TaskQueue) :
    (ts.foldl (splitPushStep metric prank s) q
      ).remaining_work_for_query_subtables_ =
      q.remaining_work_for_query_subtables_ :=
  (splitPush_fold_shape metric prank s ts q).2.2.1

theorem splitPush_fold_tasks_len (metric : Int → Int → Int)
    (prank : Int → Int) (s : Nat) (ts : List Task) (q : TaskQueue) :
    (ts.foldl (splitPushStep metric prank s) q).tasks_.length =
      q.tasks_.length :=
  (splitPush_fold_shape metric prank s ts q).2.2.2.1

theorem splitPush_fold_checked (metric : Int → Int → Int)
    (prank : Int → Int) (s : Nat) (ts : List Task) (q : TaskQueue) :
    (ts.foldl (splitPushStep metric prank s) q).checked_out_query_subtables_ =
      q.checked_out_query_subtables_ :=
  (splitPush_fold_shape metric prank s ts q).2.2.2.2.1

/-- The exact effect of `split_subtree_` on a slot with an allocated
assigned set: the left child overwrites the slot, the right child is
appended with a copied assigned set, an equal remaining-work entry and a
fresh heap, the drained tasks are re-pushed by the re-push loop. -/
theorem split_spec (wr : Int) (metric : Int → Int → Int) (prank : Int → Int)
    (s : Nat) (q : TaskQueue) (aset : List Interval)
    (hs : s < q.tasks_.length)
    (ha : q.assigned_work_.getD s none = some aset) :
    split_subtree_ wr metric prank s q =
      some ((q.tasks_.getD s []).foldl (splitPushStep metric prank s)
        { q with
          query_subtables_ :=
            (q.query_subtables_.set s
              (withStart (q.query_subtables_.getD s SubTable.dflt)
                (q.query_subtables_.getD s SubTable.dflt).startNode.left))
            ++ [withStart (q.query_subtables_.getD s SubTable.dflt)
                (q.query_subtables_.getD s SubTable.dflt).startNode.right],
          tasks_ := (q.tasks_.set s []) ++ [[]],
          num_remaining_tasks_ :=
            q.num_remaining_tasks_ - ((q.tasks_.getD s []).length : Int),
          remaining_local_computation_ :=
            (q.tasks_.getD s []).foldl (fun r t => sub64 r t.work)
              q.remaining_local_computation_,
          assigned_work_ := q.assigned_work_ ++ [some aset],
          remaining_work_for_query_subtables_ :=
            q.remaining_work_for_query_subtables_ ++
              [q.remaining_work_for_query_subtables_.getD s 0] }) := by
  have hdrain := drainLoop_spec wr s (q.tasks_.getD s [])
    { q with query_subtables_ :=
        (q.query_subtables_.set s
          (withStart (q.query_subtables_.getD s SubTable.dflt)
            (q.query_subtables_.getD s SubTable.dflt).startNode.left))
        ++ [withStart (q.query_subtables_.getD s SubTable.dflt)
            (q.query_subtables_.getD s SubTable.dflt).startNode.right] }
    [] rfl hs
  simp only [split_subtree_]
  rw [hdrain]
  simp only [List.nil_append, ha]

/-- `split_subtree_` is undefined on a slot whose assigned-work handle is
null: the C++ would dereference the null pointer when copying the set for
the new slot. -/
theorem split_none (wr : Int) (metric : Int → Int → Int) (prank : Int → Int)
    (s : Nat) (q : TaskQueue)
    (hs : s < q.tasks_.length)
    (ha : q.assigned_work_.getD s none = none) :
    split_subtree_ wr metric prank s q = none := by
  have hdrain := drainLoop_spec wr s (q.tasks_.getD s [])
    { q with query_subtables_ :=
        (q.query_subtables_.set s
          (withStart (q.query_subtables_.getD s SubTable.dflt)
            (q.query_subtables_.getD s SubTable.dflt).startNode.left))
        ++ [withStart (q.query_subtables_.getD s SubTable.dflt)
            (q.query_subtables_.getD s SubTable.dflt).startNode.right] }
    [] rfl hs
  simp only [split_subtree_]
  rw [hdrain]
  simp only [List.nil_append, ha]

/-- `split_subtree_` on an out-of-range slot index with no assigned entry:
the drain loop gets zero fuel and the null assigned handle is hit. -/
theorem split_none_oob (wr : Int) (metric : Int → Int → Int)
    (prank : Int → Int) (s : Nat) (q : TaskQueue)
    (hs : q.tasks_.length ≤ s)
    (ha : q.assigned_work_.getD s none = none) :
    split_subtree_ wr metric prank s q = none := by
  have hd : q.tasks_.getD s [] = [] := List.getD_eq_default _ _ hs
  simp only [split_subtree_, hd, List.length_nil, drainLoop, ha]

abbrev lenEq (q : TaskQueue) : Prop :=
  q.query_subtables_.length = q.tasks_.length ∧
  q.assigned_work_.length = q.tasks_.length ∧
  q.remaining_work_for_query_subtables_.length = q.tasks_.length

/-! ### C5 : parallel-vector length invariant -/

/-- Claim C5: the four parallel vectors `subtree`, `tasks`, `assigned` and
`remaining_work` have equal length in every reachable state: initialization
establishes the equality and `GrowSlots_`, `Evict_`, `split_subtree_`,
`Synchronize` (in particular its return path) and `PushNewQueue` each
preserve it. -/
theorem C5_parallel_vector_length :
    (∀ (nt : Int) (qsubs : List SubTable) (tq tr : Nat)
        (cache : List (Int × SubTable)) (lf : List (Nat × Nat × Tree))
        (lr : Int), lenEq (InitQueue nt qsubs tq tr cache lf lr)) ∧
    (∀ q : TaskQueue, lenEq q → lenEq (GrowSlots_ q)) ∧
    (∀ (q : TaskQueue) (s : Nat), lenEq q → lenEq (Evict_ s q)) ∧
    (∀ (wr : Int) (metric : Int → Int → Int) (prank : Int → Int) (s : Nat)
        (q q' : TaskQueue), lenEq q →
        split_subtree_ wr metric prank s q = some q' → lenEq q') ∧
    (∀ (r : SubTable) (q : TaskQueue), lenEq q → lenEq (Synchronize r q)) ∧
    (∀ (r : Int) (st : SubTable) (q : TaskQueue), lenEq q →
        lenEq ((PushNewQueue r st q).2)) := by
  refine ⟨?_, ?_, ?_, ?_, ?_, ?_⟩
  · intro nt qsubs tq tr cache lf lr
    refine ⟨?_, ?_, ?_⟩ <;> simp [InitQueue]
  · intro q ⟨h1, h2, h3⟩
    refine ⟨?_, ?_, ?_⟩ <;> simp [GrowSlots_, h1, h2, h3]
  · intro q s ⟨h1, h2, h3⟩
    refine ⟨?_, ?_, ?_⟩ <;>
      simp [Evict_, length_evictAt, h1, h2, h3]
  · intro wr metric prank s q q' ⟨h1, h2, h3⟩ hsp
    by_cases hs : s < q.tasks_.length
    · have ha : ∃ aset, q.assigned_work_.getD s none = some aset := by
        cases hc : q.assigned_work_.getD s none with
        | none =>
          rw [split_none wr metric prank s q hs hc] at hsp
          exact Option.noConfusion hsp
        | some aset => exact ⟨aset, rfl⟩
      obtain ⟨aset, ha⟩ := ha
      rw [split_spec wr metric prank s q aset hs ha] at hsp
      obtain ⟨rfl⟩ : _ = q' := Option.some.injEq _ _ ▸ hsp
      refine ⟨?_, ?_, ?_⟩ <;>
        simp [splitPush_fold_qs, splitPush_fold_assigned, splitPush_fold_rw,
          splitPush_fold_tasks_len, h1, h2, h3]
    · exfalso
      have ha : q.assigned_work_.getD s none = none :=
        List.getD_eq_default _ _ (by omega)
      rw [split_none_oob wr metric prank s q (by omega) ha] at hsp
      exact Option.noConfusion hsp
  · intro r q ⟨h1, h2, h3⟩
    unfold Synchronize
    cases hf : q.checked_out_query_subtables_.findIdx?
        (fun e => e.query_subtable_.includes r) with
    | none => exact ⟨h1, h2, h3⟩
    | some i =>
      simp only []
      split
      · refine ⟨?_, ?_, ?_⟩ <;> simp [h1, h2, h3]
      · exact ⟨h1, h2, h3⟩
  · intro r st q ⟨h1, h2, h3⟩
    refine ⟨?_, ?_, ?_⟩ <;>
      simp [PushNewQueue, GrowSlots_, h1, h2, h3]

/-- Witness for C5 at the sample initial state. -/
theorem C5_witness :
    lenEq (GrowSlots_ exQ0) ∧ lenEq (Evict_ 0 exQ1) ∧
    lenEq ((PushNewQueue 1 exRefSub exQ0).2) :=
  ⟨C5_parallel_vector_length.2.1 exQ0 (by decide),
   C5_parallel_vector_length.2.2.1 exQ1 0 (by decide),
   C5_parallel_vector_length.2.2.2.2.2 1 exRefSub exQ0 (by decide)⟩

/-! ### C2 : single-slot dequeue on a non-empty heap -/

/-- Claim C2: when slot `s` has a non-empty task heap, the single-slot
dequeue pops the top (highest-priority) task into `out_task`, decrements
`num_remaining_tasks` by one and `remaining_local` by that task's work and
reports no cleanup; when a checkout is requested, it atomically moves the
slot's four records into a new checked-out entry locked to the caller's own
rank at the front of the list, increments `num_exported` and evicts the
slot from the active vectors. -/
theorem C2_dequeue_nonempty_heap (world_rank : Int) (q : TaskQueue) (s : Nat)
    (t : Task) (rest : TaskHeap)
    (hh : q.tasks_.getD s [] = t :: rest)
    (hsorted : (q.tasks_.getD s []).Sorted
      (fun a b => b.priority ≤ a.priority))
    (hw : t.work ≤ q.remaining_local_computation_)
    (hrl : q.remaining_local_computation_ < M64) :
    (∀ co : Bool, (DequeueTask world_rank s co q).1 = some (t, s) ∧
        (DequeueTask world_rank s co q).2.1 = false) ∧
    (∀ u ∈ q.tasks_.getD s [], u.priority ≤ t.priority) ∧
    (DequeueTask world_rank s false q).2.2 =
      { q with tasks_ := q.tasks_.set s rest,
               num_remaining_tasks_ := q.num_remaining_tasks_ - 1,
               remaining_local_computation_ :=
                 q.remaining_local_computation_ - t.work } ∧
    (DequeueTask world_rank s true q).2.2.checked_out_query_subtables_ =
      { query_subtable_ := q.query_subtables_.getD s SubTable.dflt,
        task_ := rest,
        assigned_work_ := q.assigned_work_.getD s none,
        remaining_work_for_query_subtable_ :=
          q.remaining_work_for_query_subtables_.getD s 0,
        locked_mpi_rank_ := world_rank } :: q.checked_out_query_subtables_ ∧
    (DequeueTask world_rank s true q).2.2.num_exported_query_subtables_ =
      q.num_exported_query_subtables_ + 1 ∧
    (DequeueTask world_rank s true q).2.2.tasks_ =
      evictAt (q.tasks_.set s rest) s ∧
    (DequeueTask world_rank s true q).2.2.query_subtables_ =
      evictAt q.query_subtables_ s ∧
    (DequeueTask world_rank s true q).2.2.assigned_work_ =
      evictAt q.assigned_work_ s ∧
    (DequeueTask world_rank s true q).2.2.remaining_work_for_query_subtables_ =
      evictAt q.remaining_work_for_query_subtables_ s ∧
    (DequeueTask world_rank s true q).2.2.num_remaining_tasks_ =
      q.num_remaining_tasks_ - 1 ∧
    (DequeueTask world_rank s true q).2.2.remaining_local_computation_ =
      q.remaining_local_computation_ - t.work := by
  have hs : s < q.tasks_.length := by
    refine lt_length_of_getD_ne (d := []) ?_
    rw [hh]; simp
  have hgetset : (q.tasks_.set s rest).getD s [] = rest :=
    getD_set_self _ _ _ _ hs
  simp only [List.getD_eq_getElem?_getD] at hgetset
  have hsub : sub64 q.remaining_local_computation_ t.work =
      q.remaining_local_computation_ - t.work := sub64_exact hw hrl
  refine ⟨?_, ?_, ?_, ?_, ?_, ?_, ?_, ?_, ?_, ?_, ?_⟩
  · intro co
    rw [DequeueTask_pop world_rank s co q t rest hh]
    exact ⟨rfl, rfl⟩
  · intro u hu
    rw [hh] at hu hsorted
    rcases List.mem_cons.mp hu with h | h
    · rw [h]
    · exact (List.sorted_cons.mp hsorted).1 u h
  · rw [DequeueTask_pop world_rank s false q t rest hh]
    simp [hsub]
  · rw [DequeueTask_pop world_rank s true q t rest hh]
    simp [LockQuerySubTable, Evict_, hgetset, getD_set_ne]
  · rw [DequeueTask_pop world_rank s true q t rest hh]
    simp [LockQuerySubTable, Evict_]
  · rw [DequeueTask_pop world_rank s true q t rest hh]
    simp [LockQuerySubTable, Evict_]
  · rw [DequeueTask_pop world_rank s true q t rest hh]
    simp [LockQuerySubTable, Evict_]
  · rw [DequeueTask_pop world_rank s true q t rest hh]
    simp [LockQuerySubTable, Evict_]
  · rw [DequeueTask_pop world_rank s true q t rest hh]
    simp [LockQuerySubTable, Evict_]
  · rw [DequeueTask_pop world_rank s true q t rest hh]
    simp [LockQuerySubTable, Evict_]
  · rw [DequeueTask_pop world_rank s true q t rest hh]
    simp [LockQuerySubTable, Evict_, hsub]

/-- Witness for C2 at the sample state with a single task in slot 0. -/
theorem C2_witness :
    (DequeueTask 0 0 true exQ1).1 =
      some (mkTask exMetric exPrank exQSub exRefSub, 0) ∧
    (DequeueTask 0 0 true exQ1).2.2.num_exported_query_subtables_ = 1 := by
  have h := C2_dequeue_nonempty_heap 0 exQ1 0
    (mkTask exMetric exPrank exQSub exRefSub) [] (by decide) (by decide)
    (by decide) (by decide)
  refine ⟨(h.1 true).1, ?_⟩
  rw [h.2.2.2.2.1]
  decide

/-! ### C6 : splitting a query subtree -/

/-- The heap contents and cache-lock log produced by the re-push loop of
`split_subtree_`: every task of `ts` is pushed once into slot `s` and once
into slot `j` (the last slot), with priorities recomputed from each slot's
current subtable, and the cache is locked once per task. -/
theorem splitPush_fold_spec (metric : Int → Int → Int) (prank : Int → Int)
    (s j : Nat) :
    ∀ (ts : List Task) (q : TaskQueue),
    s < q.tasks_.length → j < q.tasks_.length → s ≠ j →
    j = q.query_subtables_.length - 1 →
    (ts.foldl (splitPushStep metric prank s) q).tasks_.getD s [] =
      ts.foldl (fun hp u => heapPush (mkTask metric prank
        (q.query_subtables_.getD s SubTable.dflt) u.referenceSubtable) hp)
        (q.tasks_.getD s []) ∧
    (ts.foldl (splitPushStep metric prank s) q).tasks_.getD j [] =
      ts.foldl (fun hp u => heapPush (mkTask metric prank
        (q.query_subtables_.getD j SubTable.dflt) u.referenceSubtable) hp)
        (q.tasks_.getD j []) ∧
    (∀ k, k ≠ s → k ≠ j →
      (ts.foldl (splitPushStep metric prank s) q).tasks_.getD k [] =
        q.tasks_.getD k []) ∧
    (ts.foldl (splitPushStep metric prank s) q).cache_locks_ =
      q.cache_locks_ ++
        ts.map (fun u => (u.referenceSubtable.cacheBlockId, 1)) := by
  intro ts
  induction ts with
  | nil =>
    intro q _ _ _ _
    exact ⟨rfl, rfl, fun k _ _ => rfl, by simp⟩
  | cons u ts ih =>
    intro q hs hj hsj hjlen
    have hstep_qs : (splitPushStep metric prank s q u).query_subtables_ =
        q.query_subtables_ := by
      simp [splitPushStep, PushTask, LockCache]
    have hstep_locks : (splitPushStep metric prank s q u).cache_locks_ =
        q.cache_locks_ ++ [(u.referenceSubtable.cacheBlockId, 1)] := by
      simp [splitPushStep, PushTask, LockCache]
    have hstep_tasks : (splitPushStep metric prank s q u).tasks_ =
        (q.tasks_.set s (heapPush (mkTask metric prank
            (q.query_subtables_.getD s SubTable.dflt) u.referenceSubtable)
          (q.tasks_.getD s []))).set j
          (heapPush (mkTask metric prank
            (q.query_subtables_.getD j SubTable.dflt) u.referenceSubtable)
          (q.tasks_.getD j [])) := by
      simp only [splitPushStep, PushTask, LockCache, ← hjlen,
        List.getD_eq_getElem?_getD, List.getElem?_set_ne hsj]
    have hs2 : s < (splitPushStep metric prank s q u).tasks_.length := by
      rw [hstep_tasks]; simpa using hs
    have hj2 : j < (splitPushStep metric prank s q u).tasks_.length := by
      rw [hstep_tasks]; simpa using hj
    have hjlen2 : j = (splitPushStep metric prank s q u
        ).query_subtables_.length - 1 := by
      rw [hstep_qs]; exact hjlen
    obtain ⟨i1, i2, i3, i4⟩ := ih (splitPushStep metric prank s q u)
      hs2 hj2 hsj hjlen2
    refine ⟨?_, ?_, ?_, ?_⟩
    · rw [List.foldl_cons, List.foldl_cons, i1]
      simp only [hstep_qs, hstep_tasks]
      rw [getD_set_ne _ _ _ (Ne.symm hsj), getD_set_self _ _ _ _ hs]
    · rw [List.foldl_cons, List.foldl_cons, i2]
      simp only [hstep_qs, hstep_tasks]
      rw [getD_set_self _ _ _ _ (by simpa using hj)]
    · intro k hks hkj
      rw [List.foldl_cons, i3 k hks hkj, hstep_tasks,
        getD_set_ne _ _ _ (Ne.symm hkj), getD_set_ne _ _ _ (Ne.symm hks)]
    · rw [List.foldl_cons, i4, hstep_locks]
      simp

theorem getD_concat_last {α : Type} (l : List α) (x d : α) :
    (l ++ [x]).getD l.length d = x := by
  simpa using getD_append_right l [x] d 0

/-- Claim C6: for every slot `s` whose query subtree is not a leaf and
whose assigned-work set is allocated, `split_subtree_` replaces `s`'s
subtree by its left child and appends exactly one new slot whose subtree is
the right child, whose assigned set is a copy of `s`'s set, whose remaining
work equals `s`'s, and whose task heap starts empty; every task drained
from `s`'s original heap is then pushed exactly once into each of the two
resulting slots with priority recomputed from their new bounds, and the
reference cache is locked exactly once per drained task.  The statement is
universally quantified over the drained heap, so it covers the case of zero
drained tasks. -/
theorem C6_split_subtree (wr : Int) (metric : Int → Int → Int)
    (prank : Int → Int) (s : Nat) (q : TaskQueue) (aset : List Interval)
    (hlen : lenEq q) (hs : s < q.tasks_.length)
    (hleaf : (q.query_subtables_.getD s SubTable.dflt).startNode.isLeaf
      = false)
    (ha : q.assigned_work_.getD s none = some aset) :
    ∃ q', split_subtree_ wr metric prank s q = some q' ∧
      q'.query_subtables_ =
        (q.query_subtables_.set s
          (withStart (q.query_subtables_.getD s SubTable.dflt)
            (q.query_subtables_.getD s SubTable.dflt).startNode.left))
        ++ [withStart (q.query_subtables_.getD s SubTable.dflt)
            (q.query_subtables_.getD s SubTable.dflt).startNode.right] ∧
      q'.assigned_work_ = q.assigned_work_ ++ [some aset] ∧
      q'.remaining_work_for_query_subtables_ =
        q.remaining_work_for_query_subtables_ ++
          [q.remaining_work_for_query_subtables_.getD s 0] ∧
      q'.tasks_.length = q.tasks_.length + 1 ∧
      q'.tasks_.getD s [] =
        (q.tasks_.getD s []).foldl (fun hp u => heapPush
          (mkTask metric prank
            (withStart (q.query_subtables_.getD s SubTable.dflt)
              (q.query_subtables_.getD s SubTable.dflt).startNode.left)
            u.referenceSubtable) hp) [] ∧
      q'.tasks_.getD q.tasks_.length [] =
        (q.tasks_.getD s []).foldl (fun hp u => heapPush
          (mkTask metric prank
            (withStart (q.query_subtables_.getD s SubTable.dflt)
              (q.query_subtables_.getD s SubTable.dflt).startNode.right)
            u.referenceSubtable) hp) [] ∧
      (∀ k, k < q.tasks_.length → k ≠ s →
        q'.tasks_.getD k [] = q.tasks_.getD k []) ∧
      q'.cache_locks_ = q.cache_locks_ ++
        (q.tasks_.getD s []).map
          (fun u => (u.referenceSubtable.cacheBlockId, 1)) ∧
      q'.checked_out_query_subtables_ = q.checked_out_query_subtables_ := by
  obtain ⟨hl1, hl2, hl3⟩ := hlen
  have hsq : s < q.query_subtables_.length := by omega
  have hsp := split_spec wr metric prank s q aset hs ha
  refine ⟨_, hsp, ?_, ?_, ?_, ?_, ?_, ?_, ?_, ?_, ?_⟩
  · rw [splitPush_fold_qs]
  · rw [splitPush_fold_assigned]
  · rw [splitPush_fold_rw]
  · rw [splitPush_fold_tasks_len]
    simp
  all_goals {
    have hq5s : ((q.tasks_.set s []) ++ [[]]).getD s ([] : TaskHeap) = [] := by
      rw [getD_append_left _ _ _ (by simpa using hs), getD_set_self _ _ _ _ hs]
    have hq5j : ((q.tasks_.set s []) ++ [[]]).getD q.tasks_.length
        ([] : TaskHeap) = [] := by
      have := getD_concat_last (q.tasks_.set s []) ([] : TaskHeap) []
      rwa [List.length_set] at this
    have hq5qs_s :
        ((q.query_subtables_.set s
            (withStart (q.query_subtables_.getD s SubTable.dflt)
              (q.query_subtables_.getD s SubTable.dflt).startNode.left))
          ++ [withStart (q.query_subtables_.getD s SubTable.dflt)
              (q.query_subtables_.getD s SubTable.dflt).startNode.right]
          ).getD s SubTable.dflt =
          withStart (q.query_subtables_.getD s SubTable.dflt)
            (q.query_subtables_.getD s SubTable.dflt).startNode.left := by
      rw [getD_append_left _ _ _ (by simpa using hsq),
        getD_set_self _ _ _ _ hsq]
    have hq5qs_j :
        ((q.query_subtables_.set s
            (withStart (q.query_subtables_.getD s SubTable.dflt)
              (q.query_subtables_.getD s SubTable.dflt).startNode.left))
          ++ [withStart (q.query_subtables_.getD s SubTable.dflt)
              (q.query_subtables_.getD s SubTable.dflt).startNode.right]
          ).getD q.tasks_.length SubTable.dflt =
          withStart (q.query_subtables_.getD s SubTable.dflt)
            (q.query_subtables_.getD s SubTable.dflt).startNode.right := by
      have := getD_concat_last
        (q.query_subtables_.set s
          (withStart (q.query_subtables_.getD s SubTable.dflt)
            (q.query_subtables_.getD s SubTable.dflt).startNode.left))
        (withStart (q.query_subtables_.getD s SubTable.dflt)
          (q.query_subtables_.getD s SubTable.dflt).startNode.right)
        SubTable.dflt
      rwa [List.length_set, hl1] at this
    obtain ⟨f1, f2, f3, f4⟩ :=
      splitPush_fold_spec metric prank s q.tasks_.length (q.tasks_.getD s [])
        { q with
          query_subtables_ :=
            (q.query_subtables_.set s
              (withStart (q.query_subtables_.getD s SubTable.dflt)
                (q.query_subtables_.getD s SubTable.dflt).startNode.left))
            ++ [withStart (q.query_subtables_.getD s SubTable.dflt)
                (q.query_subtables_.getD s SubTable.dflt).startNode.right],
          tasks_ := (q.tasks_.set s []) ++ [[]],
          num_remaining_tasks_ :=
            q.num_remaining_tasks_ - ((q.tasks_.getD s []).length : Int),
          remaining_local_computation_ :=
            (q.tasks_.getD s []).foldl (fun r t => sub64 r t.work)
              q.remaining_local_computation_,
          assigned_work_ := q.assigned_work_ ++ [some aset],
          remaining_work_for_query_subtables_ :=
            q.remaining_work_for_query_subtables_ ++
              [q.remaining_work_for_query_subtables_.getD s 0] }
        (by simp only [List.length_append, List.length_set, List.length_cons,
              List.length_nil]; omega)
        (by simp only [List.length_append, List.length_set, List.length_cons,
              List.length_nil]; omega)
        (by omega)
        (by simp only [List.length_append, List.length_set, List.length_cons,
              List.length_nil]; omega)
    first
      | (rw [f1]; simp only [hq5s, hq5qs_s])
      | (rw [f2]; simp only [hq5j, hq5qs_j])
      | (intro k hk hks
         rw [f3 k hks (by omega), getD_append_left _ _ _ (by simpa using hk),
           getD_set_ne _ _ _ (Ne.symm hks)])
      | (rw [f4])
      | (rw [splitPush_fold_checked])
  }

/-- Witness for C6 at the sample state with one internal-node slot holding
one task: the split yields two slots, each holding the re-priced task, with
one cache lock recorded. -/
theorem C6_witness :
    ∃ q', split_subtree_ 0 exMetric exPrank 0 exQ4 = some q' ∧
      q'.tasks_.length = 2 ∧
      q'.cache_locks_ = [(42, 1)] := by
  obtain ⟨q', he, _, _, _, h5, _, _, _, h9, _⟩ :=
    C6_split_subtree 0 exMetric exPrank 0 exQ4 []
      (by refine ⟨?_, ?_, ?_⟩ <;> decide) (by decide) (by decide) (by decide)
  refine ⟨q', he, ?_, ?_⟩
  · rw [h5]; decide
  · rw [h9]; decide

/-! ### C4 : idempotence of GenerateTasks per received reference id -/

/-- The originating table rank of the slot at index `j`. -/
def rankAt (q : TaskQueue) (j : Nat) : Int :=
  (q.query_subtables_.getD j SubTable.dflt).tableRank

/-- The interval can no longer be inserted into this assigned-work set. -/
def gridBlocked (grid : Interval) (o : Option (List Interval)) : Prop :=
  ∃ s, o = some s ∧ (disInsert s grid).1 = false

/-- The interval can no longer be inserted into this checked-out entry's
assigned-work set. -/
def entryBlocked (grid : Interval) (e : QuerySubTableLock) : Prop :=
  ∃ s, e.assigned_work_ = some s ∧ (disInsert s grid).1 = false

theorem overlap_self (r0 : Int) (rb rc : Nat) (h : 0 < rc) :
    intervalOverlaps (r0, rb, rb + rc) (r0, rb, rb + rc) = true := by
  simp [intervalOverlaps]
  omega

theorem disInsert_false_eq {s : List Interval} {grid : Interval}
    (h : (disInsert s grid).1 = false) : disInsert s grid = (false, s) := by
  unfold disInsert at h ⊢
  split at h
  · simp_all
  · simp at h

theorem disInsert_self_block {s s2 : List Interval} {grid : Interval}
    (hov : intervalOverlaps grid grid = true)
    (hins : disInsert s grid = (true, s2)) :
    (disInsert s2 grid).1 = false := by
  unfold disInsert at hins
  split at hins
  · exact absurd (congrArg Prod.fst hins) (by simp)
  · obtain ⟨-, rfl⟩ : true = true ∧ grid :: s = s2 := by
      simpa [Prod.ext_iff] using hins
    simp [disInsert, hov]

theorem ga_some_env {wr : Int} {metric : Int → Int → Int}
    {prank : Int → Int} {ref : SubTable} {grid : Interval} {cid : Int}
    {j : Nat} {q q2 : TaskQueue}
    (h : genActiveStep wr metric prank ref grid cid j q = some q2) :
    q2.query_subtables_ = q.query_subtables_ ∧
    q2.cache_ = q.cache_ ∧ q2.local_find_ = q.local_find_ ∧
    q2.local_rank_ = q.local_rank_ ∧
    q2.checked_out_query_subtables_ = q.checked_out_query_subtables_ ∧
    (∀ k, k ≠ j → q2.assigned_work_.getD k none =
      q.assigned_work_.getD k none) := by
  unfold genActiveStep at h
  by_cases hr : (q.query_subtables_.getD j SubTable.dflt).tableRank = wr
  · rw [if_pos hr] at h
    cases hc : q.assigned_work_.getD j none with
    | none =>
      simp only [hc] at h
      exact Option.noConfusion h
    | some s =>
      simp only [hc] at h
      cases hd : disInsert s grid with
      | mk b s2 =>
        simp only [hd] at h
        cases b with
        | true =>
          obtain rfl := (Option.some.inj h).symm
          refine ⟨by simp [LockCache, PushTask], by simp [LockCache, PushTask],
            by simp [LockCache, PushTask], by simp [LockCache, PushTask],
            by simp [LockCache, PushTask], ?_⟩
          intro k hk
          simp only [LockCache, PushTask]
          exact getD_set_ne _ _ _ (fun e => hk (e.symm))
        | false =>
          obtain rfl := (Option.some.inj h).symm
          exact ⟨rfl, rfl, rfl, rfl, rfl, fun k _ => rfl⟩
  · rw [if_neg hr] at h
    obtain rfl := (Option.some.inj h).symm
    exact ⟨rfl, rfl, rfl, rfl, rfl, fun k _ => rfl⟩

theorem ga_id_of_blocked {wr : Int} {metric : Int → Int → Int}
    {prank : Int → Int} {ref : SubTable} {grid : Interval} {cid : Int}
    {j : Nat} {q : TaskQueue}
    (hb : rankAt q j = wr → gridBlocked grid (q.assigned_work_.getD j none)) :
    genActiveStep wr metric prank ref grid cid j q = some q := by
  unfold genActiveStep
  by_cases hr : (q.query_subtables_.getD j SubTable.dflt).tableRank = wr
  · obtain ⟨s, hs1, hs2⟩ := hb hr
    rw [if_pos hr]
    simp only [hs1, disInsert_false_eq hs2]
  · rw [if_neg hr]

theorem ga_blocks {wr : Int} {metric : Int → Int → Int} {prank : Int → Int}
    {ref : SubTable} {grid : Interval} {cid : Int} {j : Nat}
    {q q2 : TaskQueue} (hov : intervalOverlaps grid grid = true)
    (h : genActiveStep wr metric prank ref grid cid j q = some q2)
    (hr : rankAt q j = wr) :
    gridBlocked grid (q2.assigned_work_.getD j none) := by
  unfold genActiveStep at h
  rw [if_pos (show (q.query_subtables_.getD j SubTable.dflt).tableRank = wr
    from hr)] at h
  cases hc : q.assigned_work_.getD j none with
  | none =>
    simp only [hc] at h
    exact Option.noConfusion h
  | some s =>
    have hj : j < q.assigned_work_.length := by
      refine lt_length_of_getD_ne (d := none) ?_
      rw [hc]; simp
    simp only [hc] at h
    cases hd : disInsert s grid with
    | mk b s2 =>
      simp only [hd] at h
      cases b with
      | true =>
        obtain rfl := (Option.some.inj h).symm
        refine ⟨s2, ?_, disInsert_self_block hov hd⟩
        simp only [LockCache, PushTask]
        exact getD_set_self _ _ _ _ hj
      | false =>
        obtain rfl := (Option.some.inj h).symm
        exact ⟨s, hc, by rw [hd]⟩

theorem ga_preserves_blocked {wr : Int} {metric : Int → Int → Int}
    {prank : Int → Int} {ref : SubTable} {grid : Interval} {cid : Int}
    {j : Nat} {q q2 : TaskQueue}
    (h : genActiveStep wr metric prank ref grid cid j q = some q2) (k : Nat)
    (hb : gridBlocked grid (q.assigned_work_.getD k none)) :
    gridBlocked grid (q2.assigned_work_.getD k none) := by
  by_cases hkj : k = j
  · subst hkj
    have hid : genActiveStep wr metric prank ref grid cid k q = some q :=
      ga_id_of_blocked (fun _ => hb)
    rw [hid] at h
    obtain rfl := (Option.some.inj h).symm
    exact hb
  · rw [(ga_some_env h).2.2.2.2.2 k hkj]
    exact hb

theorem gc_some_env {metric : Int → Int → Int} {prank : Int → Int}
    {ref : SubTable} {grid : Interval} {cid : Int} {i : Nat}
    {q q2 : TaskQueue}
    (h : genCheckedStep metric prank ref grid cid i q = some q2) :
    q2.query_subtables_ = q.query_subtables_ ∧
    q2.assigned_work_ = q.assigned_work_ ∧
    q2.cache_ = q.cache_ ∧ q2.local_find_ = q.local_find_ ∧
    q2.local_rank_ = q.local_rank_ ∧
    q2.checked_out_query_subtables_.length =
      q.checked_out_query_subtables_.length ∧
    (∀ k, k ≠ i → q2.checked_out_query_subtables_.getD k
        QuerySubTableLock.dflt =
      q.checked_out_query_subtables_.getD k QuerySubTableLock.dflt) := by
  unfold genCheckedStep at h
  cases hc : (q.checked_out_query_subtables_.getD i
      QuerySubTableLock.dflt).assigned_work_ with
  | none =>
    simp only [hc] at h
    exact Option.noConfusion h
  | some s =>
    simp only [hc] at h
    cases hd : disInsert s grid with
    | mk b s2 =>
      simp only [hd] at h
      cases b with
      | true =>
        obtain rfl := (Option.some.inj h).symm
        refine ⟨rfl, rfl, rfl, rfl, rfl, by simp [LockCache], ?_⟩
        intro k hk
        simp only [LockCache]
        exact getD_set_ne _ _ _ (fun e => hk (e.symm))
      | false =>
        obtain rfl := (Option.some.inj h).symm
        exact ⟨rfl, rfl, rfl, rfl, rfl, rfl, fun k _ => rfl⟩

theorem gc_id_of_blocked {metric : Int → Int → Int} {prank : Int → Int}
    {ref : SubTable} {grid : Interval} {cid : Int} {i : Nat} {q : TaskQueue}
    (hb : entryBlocked grid
      (q.checked_out_query_subtables_.getD i QuerySubTableLock.dflt)) :
    genCheckedStep metric prank ref grid cid i q = some q := by
  obtain ⟨s, hs1, hs2⟩ := hb
  unfold genCheckedStep
  simp only [hs1, disInsert_false_eq hs2]

theorem gc_blocks {metric : Int → Int → Int} {prank : Int → Int}
    {ref : SubTable} {grid : Interval} {cid : Int} {i : Nat}
    {q q2 : TaskQueue} (hov : intervalOverlaps grid grid = true)
    (h : genCheckedStep metric prank ref grid cid i q = some q2) :
    entryBlocked grid
      (q2.checked_out_query_subtables_.getD i QuerySubTableLock.dflt) := by
  unfold genCheckedStep at h
  cases hc : (q.checked_out_query_subtables_.getD i
      QuerySubTableLock.dflt).assigned_work_ with
  | none =>
    simp only [hc] at h
    exact Option.noConfusion h
  | some s =>
    have hi : i < q.checked_out_query_subtables_.length := by
      refine lt_length_of_getD_ne (d := QuerySubTableLock.dflt) ?_
      intro e
      rw [e] at hc
      exact Option.noConfusion hc
    simp only [hc] at h
    cases hd : disInsert s grid with
    | mk b s2 =>
      simp only [hd] at h
      cases b with
      | true =>
        obtain rfl := (Option.some.inj h).symm
        refine ⟨s2, ?_, disInsert_self_block hov hd⟩
        simp only [LockCache]
        rw [getD_set_self _ _ _ _ hi]
      | false =>
        obtain rfl := (Option.some.inj h).symm
        exact ⟨s, hc, by rw [hd]⟩

theorem gc_preserves_blocked {metric : Int → Int → Int} {prank : Int → Int}
    {ref : SubTable} {grid : Interval} {cid : Int} {i : Nat}
    {q q2 : TaskQueue}
    (h : genCheckedStep metric prank ref grid cid i q = some q2) (k : Nat)
    (hb : entryBlocked grid
      (q.checked_out_query_subtables_.getD k QuerySubTableLock.dflt)) :
    entryBlocked grid
      (q2.checked_out_query_subtables_.getD k QuerySubTableLock.dflt) := by
  by_cases hki : k = i
  · subst hki
    have hid : genCheckedStep metric prank ref grid cid k q = some q :=
      gc_id_of_blocked hb
    rw [hid] at h
    obtain rfl := (Option.some.inj h).symm
    exact hb
  · rw [(gc_some_env h).2.2.2.2.2.2 k hki]
    exact hb

theorem stepListM_id (f : Nat → TaskQueue → Option TaskQueue)
    (js : List Nat) (q : TaskQueue) (h : ∀ j ∈ js, f j q = some q) :
    stepListM f js q = some q := by
  induction js with
  | nil => rfl
  | cons j js ih =>
    unfold stepListM
    rw [h j (by simp)]
    exact ih (fun k hk => h k (by simp [hk]))

theorem activeFold_spec {wr : Int} {metric : Int → Int → Int}
    {prank : Int → Int} {ref : SubTable} {grid : Interval} {cid : Int}
    (hov : intervalOverlaps grid grid = true) :
    ∀ (js : List Nat) (q q2 : TaskQueue),
    stepListM (genActiveStep wr metric prank ref grid cid) js q = some q2 →
    q2.query_subtables_ = q.query_subtables_ ∧
    q2.cache_ = q.cache_ ∧ q2.local_find_ = q.local_find_ ∧
    q2.local_rank_ = q.local_rank_ ∧
    q2.checked_out_query_subtables_ = q.checked_out_query_subtables_ ∧
    (∀ j ∈ js, rankAt q j = wr →
      gridBlocked grid (q2.assigned_work_.getD j none)) ∧
    (∀ k, gridBlocked grid (q.assigned_work_.getD k none) →
      gridBlocked grid (q2.assigned_work_.getD k none)) := by
  intro js
  induction js with
  | nil =>
    intro q q2 h
    obtain rfl := (Option.some.inj h).symm
    exact ⟨rfl, rfl, rfl, rfl, rfl, fun j hj => absurd hj (by simp),
      fun k hb => hb⟩
  | cons j js ih =>
    intro q q2 h
    unfold stepListM at h
    cases hstep : genActiveStep wr metric prank ref grid cid j q with
    | none => rw [hstep] at h; exact Option.noConfusion h
    | some q1 =>
      rw [hstep] at h
      obtain ⟨e1, e2, e3, e4, e5, e6, e7⟩ := ih q1 q2 h
      obtain ⟨g1, g2, g3, g4, g5, g6⟩ := ga_some_env hstep
      refine ⟨e1.trans g1, e2.trans g2, e3.trans g3, e4.trans g4,
        e5.trans g5, ?_, ?_⟩
      · intro k hk hr
        rcases List.mem_cons.mp hk with hkj | hkin
        · subst hkj
          exact e7 k (ga_blocks hov hstep hr)
        · refine e6 k hkin ?_
          unfold rankAt
          rw [g1]
          exact hr
      · intro k hb
        exact e7 k (ga_preserves_blocked hstep k hb)

theorem checkedFold_spec {metric : Int → Int → Int} {prank : Int → Int}
    {ref : SubTable} {grid : Interval} {cid : Int}
    (hov : intervalOverlaps grid grid = true) :
    ∀ (js : List Nat) (q q2 : TaskQueue),
    stepListM (genCheckedStep metric prank ref grid cid) js q = some q2 →
    q2.query_subtables_ = q.query_subtables_ ∧
    q2.assigned_work_ = q.assigned_work_ ∧
    q2.cache_ = q.cache_ ∧ q2.local_find_ = q.local_find_ ∧
    q2.local_rank_ = q.local_rank_ ∧
    q2.checked_out_query_subtables_.length =
      q.checked_out_query_subtables_.length ∧
    (∀ i ∈ js, entryBlocked grid
      (q2.checked_out_query_subtables_.getD i QuerySubTableLock.dflt)) ∧
    (∀ k, entryBlocked grid
        (q.checked_out_query_subtables_.getD k QuerySubTableLock.dflt) →
      entryBlocked grid
        (q2.checked_out_query_subtables_.getD k QuerySubTableLock.dflt)) := by
  intro js
  induction js with
  | nil =>
    intro q q2 h
    obtain rfl := (Option.some.inj h).symm
    exact ⟨rfl, rfl, rfl, rfl, rfl, rfl, fun j hj => absurd hj (by simp),
      fun k hb => hb⟩
  | cons j js ih =>
    intro q q2 h
    unfold stepListM at h
    cases hstep : genCheckedStep metric prank ref grid cid j q with
    | none => rw [hstep] at h; exact Option.noConfusion h
    | some q1 =>
      rw [hstep] at h
      obtain ⟨e1, e2, e3, e4, e5, e6, e7, e8⟩ := ih q1 q2 h
      obtain ⟨g1, g2, g3, g4, g5, g6, g7⟩ := gc_some_env hstep
      refine ⟨e1.trans g1, e2.trans g2, e3.trans g3, e4.trans g4,
        e5.trans g5, e6.trans g6, ?_, ?_⟩
      · intro k hk
        rcases List.mem_cons.mp hk with hkj | hkin
        · subst hkj
          exact e8 k (gc_blocks hov hstep)
        · exact e7 k hkin
      · intro k hb
        exact e8 k (gc_preserves_blocked hstep k hb)

theorem resolve_congr {rb rc : Nat} {cid : Int} {q q2 : TaskQueue}
    (h1 : q2.cache_ = q.cache_) (h2 : q2.local_find_ = q.local_find_)
    (h3 : q2.local_rank_ = q.local_rank_) :
    resolveReference rb rc cid q2 = resolveReference rb rc cid q := by
  unfold resolveReference FindSubTable FindByBeginCount
  rw [h1, h2, h3]

/-- Claim C4: `generate_tasks` is idempotent per received reference id: the
state after replaying the same `(owner, begin, count, cache_id)` tuple
equals the state after the first run, because every insert of the same
reference interval into a slot's or a checked-out entry's assigned set
fails on overlap, so no task is pushed and no cache lock is acquired on
the replay.  Requires `0 < count`, which the data model guarantees (a task
with an empty reference interval has zero work). -/
theorem C4_generate_tasks_idempotent (wr : Int) (metric : Int → Int → Int)
    (prank : Int → Int) (owner : Int) (rb rc : Nat) (cid : Int)
    (q q' : TaskQueue) (hrc : 0 < rc)
    (hgen : GenerateTasks wr metric prank [(owner, rb, rc, cid)] q = some q') :
    GenerateTasks wr metric prank [(owner, rb, rc, cid)] q' = some q' := by
  simp only [GenerateTasks] at hgen ⊢
  cases hone : GenerateTasksOne wr metric prank (owner, rb, rc, cid) q with
  | none => rw [hone] at hgen; exact Option.noConfusion hgen
  | some qm =>
    rw [hone] at hgen
    obtain rfl : qm = q' := Option.some.inj hgen
    unfold GenerateTasksOne at hone ⊢
    cases hres : resolveReference rb rc cid q with
    | none =>
      simp only [hres] at hone
      exact Option.noConfusion hone
    | some ref =>
      simp only [hres] at hone
      cases hact : stepListM
          (genActiveStep wr metric prank ref (ref.tableRank, rb, rb + rc) cid)
          (List.range q.query_subtables_.length) q with
      | none => rw [hact] at hone; exact Option.noConfusion hone
      | some qa =>
        rw [hact] at hone
        have hov : intervalOverlaps (ref.tableRank, rb, rb + rc)
            (ref.tableRank, rb, rb + rc) = true :=
          overlap_self ref.tableRank rb rc hrc
        obtain ⟨a1, a2, a3, a4, a5, a6, a7⟩ :=
          activeFold_spec hov (List.range q.query_subtables_.length) q qa hact
        obtain ⟨c1, c2, c3, c4, c5, c6, c7, c8⟩ :=
          checkedFold_spec hov
            (List.range qa.checked_out_query_subtables_.length) qa qm hone
        have hres2 : resolveReference rb rc cid qm = some ref := by
          rw [resolve_congr (c3.trans a2) (c4.trans a3) (c5.trans a4)]
          exact hres
        simp only [hres2]
        have hqs : qm.query_subtables_ = q.query_subtables_ := c1.trans a1
        have hact2 : stepListM
            (genActiveStep wr metric prank ref (ref.tableRank, rb, rb + rc)
              cid)
            (List.range qm.query_subtables_.length) qm = some qm := by
          refine stepListM_id _ _ _ (fun j hj => ?_)
          refine ga_id_of_blocked (fun hr => ?_)
          have hr0 : rankAt q j = wr := by
            unfold rankAt at hr ⊢
            rw [hqs] at hr
            exact hr
          have hj0 : j ∈ List.range q.query_subtables_.length := by
            rw [hqs] at hj
            exact hj
          have hblocked := a6 j hj0 hr0
          rw [show qm.assigned_work_ = qa.assigned_work_ from c2]
          exact hblocked
        simp only [hact2]
        have hclen : qm.checked_out_query_subtables_.length =
            qa.checked_out_query_subtables_.length := c6
        rw [hclen]
        have hid : stepListM
            (genCheckedStep metric prank ref (ref.tableRank, rb, rb + rc) cid)
            (List.range qa.checked_out_query_subtables_.length) qm =
            some qm :=
          stepListM_id _ _ _ (fun i hi => gc_id_of_blocked (c7 i hi))
        simp only [hid]

/-- Witness for C4: replaying the sample received reference id against the
state that already holds its task changes nothing. -/
theorem C4_witness :
    GenerateTasks 0 exMetric exPrank [(0, 0, 3, 42)] exQ1 = some exQ1 :=
  C4_generate_tasks_idempotent 0 exMetric exPrank 0 0 3 42 exQ0 exQ1
    (by decide) (by decide)

/-! ### C1 : task-accounting invariant -/

/-- The total work of the tasks of one heap. -/
def heapWork (h : TaskHeap) : Nat := (h.map Task.work).sum

/-- The number of tasks held in all active slots' heaps plus all
checked-out entries' heaps. -/
def totalTasks (q : TaskQueue) : Nat :=
  (q.tasks_.map List.length).sum +
    (q.checked_out_query_subtables_.map (fun e => e.task_.length)).sum

/-- The summed work of every task held in any active or checked-out
heap. -/
def totalWork (q : TaskQueue) : Nat :=
  (q.tasks_.map heapWork).sum +
    (q.checked_out_query_subtables_.map (fun e => heapWork e.task_)).sum

/-- The task-accounting invariant of the claim: `num_remaining_tasks`
counts the held tasks and `remaining_local_computation_` is exactly their
summed work (which then fits in the unsigned 64-bit counter). -/
abbrev TaskInv (q : TaskQueue) : Prop :=
  q.num_remaining_tasks_ = (totalTasks q : Int) ∧
  q.remaining_local_computation_ = totalWork q ∧
  totalWork q < M64

/-- The machine-level form of the accounting invariant: the counter holds
the summed work reduced modulo `2 ^ 64`.  Every operation preserves this
form unconditionally; with the no-overflow bound it is equivalent to
`TaskInv`. -/
abbrev ModInv (q : TaskQueue) : Prop :=
  q.num_remaining_tasks_ = (totalTasks q : Int) ∧
  q.remaining_local_computation_ = totalWork q % M64

theorem TaskInv.toMod {q : TaskQueue} (h : TaskInv q) : ModInv q :=
  ⟨h.1, by rw [h.2.1, Nat.mod_eq_of_lt h.2.2]⟩

theorem ModInv.toTask {q : TaskQueue} (h : ModInv q)
    (hb : totalWork q < M64) : TaskInv q :=
  ⟨h.1, by rw [h.2, Nat.mod_eq_of_lt hb], hb⟩

theorem getD_mem {α : Type} (l : List α) (j : Nat) (d : α)
    (h : j < l.length) : l.getD j d ∈ l := by
  rw [List.getD_eq_getElem?_getD, List.getElem?_eq_getElem h]
  exact List.getElem_mem h

theorem elem_le_sumMap {α : Type} (f : α → Nat) (l : List α) (j : Nat)
    (d : α) (h : j < l.length) : f (l.getD j d) ≤ (l.map f).sum :=
  List.single_le_sum (fun x _ => Nat.zero_le x) _
    (List.mem_map_of_mem f (getD_mem l j d h))

theorem sumMap_eraseIdx {α : Type} (f : α → Nat) :
    ∀ (l : List α) (i : Nat) (d : α), i < l.length →
    ((l.eraseIdx i).map f).sum + f (l.getD i d) = (l.map f).sum := by
  intro l
  induction l with
  | nil => intro i d h; simp at h
  | cons x xs ih =>
    intro i d h
    cases i with
    | zero => simp [List.eraseIdx]; omega
    | succ n =>
      simp only [List.eraseIdx, List.map_cons, List.sum_cons,
        List.getD_cons_succ]
      have := ih n d (by simpa using h)
      omega

theorem heapWork_heapPush (t : Task) (h : TaskHeap) :
    heapWork (heapPush t h) = t.work + heapWork h := by
  unfold heapWork
  rw [sumMap_heapPush]

/-- `PushTask` preserves the machine accounting invariant and adds the new
task's work to the total. -/
theorem M_PushTask (metric : Int → Int → Int) (prank : Int → Int) (j : Nat)
    (r : SubTable) (q : TaskQueue) (hj : j < q.tasks_.length)
    (hm : ModInv q) :
    ModInv (PushTask metric prank j r q) ∧
    totalWork (PushTask metric prank j r q) =
      totalWork q + (mkTask metric prank
        (q.query_subtables_.getD j SubTable.dflt) r).work ∧
    totalTasks (PushTask metric prank j r q) = totalTasks q + 1 ∧
    (PushTask metric prank j r q).tasks_.length = q.tasks_.length ∧
    (PushTask metric prank j r q).query_subtables_ = q.query_subtables_ ∧
    (PushTask metric prank j r q).checked_out_query_subtables_ =
      q.checked_out_query_subtables_ := by
  set t := mkTask metric prank (q.query_subtables_.getD j SubTable.dflt) r
    with ht
  have hw : totalWork (PushTask metric prank j r q) =
      totalWork q + t.work := by
    unfold totalWork PushTask
    have h1 := sumMap_set heapWork q.tasks_ j
      (heapPush t (q.tasks_.getD j [])) [] hj
    rw [heapWork_heapPush] at h1
    simp only [← ht]
    omega
  have hc : totalTasks (PushTask metric prank j r q) = totalTasks q + 1 := by
    unfold totalTasks PushTask
    have h1 := sumMap_set List.length q.tasks_ j
      (heapPush t (q.tasks_.getD j [])) [] hj
    rw [length_heapPush] at h1
    simp only [← ht]
    omega
  refine ⟨⟨?_, ?_⟩, hw, hc, by simp [PushTask], by simp [PushTask],
    by simp [PushTask]⟩
  · rw [hc]
    show q.num_remaining_tasks_ + 1 = ((totalTasks q + 1 : Nat) : Int)
    rw [hm.1]
    push_cast
    ring
  · rw [hw]
    show add64 q.remaining_local_computation_ t.work =
      (totalWork q + t.work) % M64
    rw [hm.2]
    exact add64_mod _ _

/-- `LockQuerySubTable` moves a heap between the active vectors and the
checked-out list: the accounting totals and counters are unchanged. -/
theorem M_Lock (s : Nat) (r : Int) (q : TaskQueue)
    (hs : s < q.tasks_.length) :
    totalWork (LockQuerySubTable s r q) = totalWork q ∧
    totalTasks (LockQuerySubTable s r q) = totalTasks q ∧
    (LockQuerySubTable s r q).num_remaining_tasks_ =
      q.num_remaining_tasks_ ∧
    (LockQuerySubTable s r q).remaining_local_computation_ =
      q.remaining_local_computation_ := by
  refine ⟨?_, ?_, rfl, rfl⟩
  · unfold totalWork LockQuerySubTable Evict_
    simp only [List.map_cons, List.sum_cons]
    have h1 := sumMap_evictAt heapWork q.tasks_ s [] hs
    omega
  · unfold totalTasks LockQuerySubTable Evict_
    simp only [List.map_cons, List.sum_cons]
    have h1 := sumMap_evictAt List.length q.tasks_ s [] hs
    omega

/-- `ReturnQuerySubTable` moves a heap back from the checked-out list: the
accounting totals and counters are unchanged. -/
theorem M_Return (i : Nat) (q : TaskQueue) :
    totalWork (ReturnQuerySubTable i q) = totalWork q ∧
    totalTasks (ReturnQuerySubTable i q) = totalTasks q ∧
    (ReturnQuerySubTable i q).num_remaining_tasks_ =
      q.num_remaining_tasks_ ∧
    (ReturnQuerySubTable i q).remaining_local_computation_ =
      q.remaining_local_computation_ := by
  unfold ReturnQuerySubTable
  cases hg : q.checked_out_query_subtables_.get? i with
  | none => exact ⟨rfl, rfl, rfl, rfl⟩
  | some e =>
    have hi : i < q.checked_out_query_subtables_.length := by
      by_contra hc
      rw [List.get?_eq_getElem?, List.getElem?_eq_none (by omega)] at hg
      exact Option.noConfusion hg
    have he : q.checked_out_query_subtables_.getD i QuerySubTableLock.dflt
        = e := by
      rw [List.getD_eq_getElem?_getD, ← List.get?_eq_getElem?, hg]
      rfl
    refine ⟨?_, ?_, rfl, rfl⟩
    · unfold totalWork
      simp only [List.map_append, List.sum_append, List.map_cons,
        List.sum_cons]
      have h1 := sumMap_eraseIdx (fun e => heapWork e.task_)
        q.checked_out_query_subtables_ i QuerySubTableLock.dflt hi
      rw [he] at h1
      beta_reduce at h1
      simp
      omega
    · unfold totalTasks
      simp only [List.map_append, List.sum_append, List.map_cons,
        List.sum_cons]
      have h1 := sumMap_eraseIdx (fun e => e.task_.length)
        q.checked_out_query_subtables_ i QuerySubTableLock.dflt hi
      rw [he] at h1
      beta_reduce at h1
      simp
      omega

theorem sumMap_set_eq {α : Type} (f : α → Nat) (l : List α) (i : Nat)
    (x d : α) (h : i < l.length) (hfx : f x = f (l.getD i d)) :
    ((l.set i x).map f).sum = (l.map f).sum := by
  have := sumMap_set f l i x d h
  omega

/-- `Synchronize` either moves an entry's heap back to the active vectors,
updates an entry in place without touching its heap, or does nothing: the
accounting totals and counters are unchanged in all cases. -/
theorem M_Sync (r : SubTable) (q : TaskQueue) :
    totalWork (Synchronize r q) = totalWork q ∧
    totalTasks (Synchronize r q) = totalTasks q ∧
    (Synchronize r q).num_remaining_tasks_ = q.num_remaining_tasks_ ∧
    (Synchronize r q).remaining_local_computation_ =
      q.remaining_local_computation_ := by
  unfold Synchronize
  cases hf : q.checked_out_query_subtables_.findIdx?
      (fun e => e.query_subtable_.includes r) with
  | none => exact ⟨rfl, rfl, rfl, rfl⟩
  | some i =>
    have hi : i < q.checked_out_query_subtables_.length :=
      (List.findIdx?_eq_some_iff_findIdx_eq.mp hf).1
    simp only []
    split
    · refine ⟨?_, ?_, rfl, rfl⟩
      · unfold totalWork
        simp only [List.map_append, List.sum_append, List.map_cons,
          List.sum_cons]
        have h1 := sumMap_eraseIdx (fun e => heapWork e.task_)
          q.checked_out_query_subtables_ i QuerySubTableLock.dflt hi
        beta_reduce at h1
        simp only [List.getD_eq_getElem?_getD] at h1
        simp
        omega
      · unfold totalTasks
        simp only [List.map_append, List.sum_append, List.map_cons,
          List.sum_cons]
        have h1 := sumMap_eraseIdx (fun e => e.task_.length)
          q.checked_out_query_subtables_ i QuerySubTableLock.dflt hi
        beta_reduce at h1
        simp only [List.getD_eq_getElem?_getD] at h1
        simp
        omega
    · refine ⟨?_, ?_, rfl, rfl⟩
      · unfold totalWork
        simp only []
        rw [sumMap_set_eq (fun e => heapWork e.task_)
          q.checked_out_query_subtables_ i _ QuerySubTableLock.dflt hi
          (by rfl)]
      · unfold totalTasks
        simp only []
        rw [sumMap_set_eq (fun e => e.task_.length)
          q.checked_out_query_subtables_ i _ QuerySubTableLock.dflt hi
          (by rfl)]

/-- `pop` removes the top task: the machine invariant is preserved and the
total work does not increase. -/
theorem M_pop (s : Nat) (q q2 : TaskQueue) (hpop : pop s q = some q2)
    (hm : ModInv q) :
    ModInv q2 ∧ totalWork q2 ≤ totalWork q := by
  unfold pop at hpop
  cases hc : q.tasks_.getD s [] with
  | nil =>
    rw [hc] at hpop
    exact Option.noConfusion hpop
  | cons t rest =>
    rw [hc] at hpop
    simp only [List.head?_cons, List.tail_cons] at hpop
    obtain rfl := (Option.some.inj hpop).symm
    have hs : s < q.tasks_.length := by
      refine lt_length_of_getD_ne (d := []) ?_
      rw [hc]; simp
    have hwsum := sumMap_set heapWork q.tasks_ s rest [] hs
    rw [hc] at hwsum
    have hcsum := sumMap_set List.length q.tasks_ s rest [] hs
    rw [hc] at hcsum
    have hhw : heapWork (t :: rest) = t.work + heapWork rest := by
      unfold heapWork; simp
    have hwle : t.work + heapWork rest ≤ totalWork q := by
      have := elem_le_sumMap heapWork q.tasks_ s [] hs
      rw [hc, hhw] at this
      unfold totalWork
      omega
    have hcle : 1 + rest.length ≤ totalTasks q := by
      have := elem_le_sumMap List.length q.tasks_ s [] hs
      rw [hc] at this
      unfold totalTasks
      simp at this
      omega
    have hW : totalWork { q with
        remaining_local_computation_ :=
          sub64 q.remaining_local_computation_ t.work,
        tasks_ := q.tasks_.set s rest,
        num_remaining_tasks_ := q.num_remaining_tasks_ - 1 } =
        totalWork q - t.work := by
      unfold totalWork
      simp only []
      rw [hhw] at hwsum
      omega
    have hC : totalTasks { q with
        remaining_local_computation_ :=
          sub64 q.remaining_local_computation_ t.work,
        tasks_ := q.tasks_.set s rest,
        num_remaining_tasks_ := q.num_remaining_tasks_ - 1 } =
        totalTasks q - 1 := by
      unfold totalTasks
      simp only []
      simp only [List.length_cons] at hcsum
      omega
    refine ⟨⟨?_, ?_⟩, ?_⟩
    · rw [hC]
      show q.num_remaining_tasks_ - 1 = ((totalTasks q - 1 : Nat) : Int)
      rw [hm.1]
      have : (1 : Nat) ≤ totalTasks q := by omega
      omega
    · rw [hW]
      show sub64 q.remaining_local_computation_ t.work =
        (totalWork q - t.work) % M64
      rw [hm.2]
      exact sub64_mod _ _ (by omega)
    · rw [hW]; omega

/-- Evicting a slot whose heap is empty leaves the accounting totals and
counters unchanged. -/
theorem M_Evict (s : Nat) (q : TaskQueue) (hs : s < q.tasks_.length)
    (hempty : q.tasks_.getD s [] = []) :
    totalWork (Evict_ s q) = totalWork q ∧
    totalTasks (Evict_ s q) = totalTasks q := by
  have h1 := sumMap_evictAt heapWork q.tasks_ s [] hs
  have h2 := sumMap_evictAt List.length q.tasks_ s [] hs
  rw [hempty] at h1 h2
  constructor
  · unfold totalWork Evict_
    simp only []
    unfold heapWork at h1 ⊢
    simp at h1
    omega
  · unfold totalTasks Evict_
    simp only []
    simp at h2
    omega

/-- The single-slot `DequeueTask` preserves the machine accounting
invariant and never increases the total work. -/
theorem M_DequeueSlot (wr : Int) (s : Nat) (co : Bool) (q : TaskQueue)
    (hs : s < q.tasks_.length) (hm : ModInv q) :
    ModInv (DequeueTask wr s co q).2.2 ∧
    totalWork (DequeueTask wr s co q).2.2 ≤ totalWork q := by
  cases hc : q.tasks_.getD s [] with
  | cons t rest =>
    have hpop : pop s q = some { q with
        remaining_local_computation_ :=
          sub64 q.remaining_local_computation_ t.work,
        tasks_ := q.tasks_.set s (q.tasks_.getD s []).tail,
        num_remaining_tasks_ := q.num_remaining_tasks_ - 1 } := by
      unfold pop
      rw [hc]
      rfl
    rw [hc] at hpop
    simp only [List.tail_cons] at hpop
    obtain ⟨hmod, hle⟩ := M_pop s q _ hpop hm
    cases co with
    | false =>
      have hstate : (DequeueTask wr s false q).2.2 = { q with
          remaining_local_computation_ :=
            sub64 q.remaining_local_computation_ t.work,
          tasks_ := q.tasks_.set s rest,
          num_remaining_tasks_ := q.num_remaining_tasks_ - 1 } := by
        rw [DequeueTask_pop wr s false q t rest hc]
        rfl
      rw [hstate]
      exact ⟨hmod, hle⟩
    | true =>
      have hstate : (DequeueTask wr s true q).2.2 =
          LockQuerySubTable s wr { q with
            remaining_local_computation_ :=
              sub64 q.remaining_local_computation_ t.work,
            tasks_ := q.tasks_.set s rest,
            num_remaining_tasks_ := q.num_remaining_tasks_ - 1 } := by
        rw [DequeueTask_pop wr s true q t rest hc]
        rfl
      rw [hstate]
      have hs2 : s < (q.tasks_.set s rest).length := by simpa using hs
      obtain ⟨l1, l2, l3, l4⟩ := M_Lock s wr
        { q with
          remaining_local_computation_ :=
            sub64 q.remaining_local_computation_ t.work,
          tasks_ := q.tasks_.set s rest,
          num_remaining_tasks_ := q.num_remaining_tasks_ - 1 } hs2
      refine ⟨⟨?_, ?_⟩, ?_⟩
      · rw [l3, l2]
        exact hmod.1
      · rw [l4, l1]
        exact hmod.2
      · rw [l1]
        exact hle
  | nil =>
    unfold DequeueTask
    rw [hc]
    simp only [List.head?_nil]
    by_cases hr : (q.query_subtables_.getD s SubTable.dflt).tableRank = wr
    · rw [if_pos hr]
      by_cases hz : q.remaining_work_for_query_subtables_.getD s 0 = 0
      · rw [if_pos hz]
        obtain ⟨e1, e2⟩ := M_Evict s q hs hc
        exact ⟨⟨by rw [e2]; exact hm.1, by rw [e1]; exact hm.2⟩,
          by rw [e1]⟩
      · rw [if_neg hz]
        exact ⟨hm, Nat.le_refl _⟩
    · rw [if_neg hr]
      have hc2 : ({ q with
          flush_requests_ :=
            q.flush_requests_ ++ [q.query_subtables_.getD s SubTable.dflt],
          num_imported_query_subtables_ :=
            q.num_imported_query_subtables_ - 1 } :
          TaskQueue).tasks_.getD s [] = [] := hc
      obtain ⟨e1, e2⟩ := M_Evict s
        { q with
          flush_requests_ :=
            q.flush_requests_ ++ [q.query_subtables_.getD s SubTable.dflt],
          num_imported_query_subtables_ :=
            q.num_imported_query_subtables_ - 1 } (by simpa using hs) hc2
      unfold Flush_
      exact ⟨⟨by rw [e2]; exact hm.1, by rw [e1]; exact hm.2⟩,
        by rw [e1]; exact le_of_eq rfl⟩

theorem heapWork_cons (t : Task) (h : TaskHeap) :
    heapWork (t :: h) = t.work + heapWork h := by
  unfold heapWork
  simp

theorem sumMap_concat {α : Type} (f : α → Nat) (l : List α) (x : α) :
    ((l ++ [x]).map f).sum = (l.map f).sum + f x := by
  simp

/-- Subtracting a list of task works one by one with the wrapping
subtraction agrees with the exact subtraction of the summed work, reduced
modulo `2 ^ 64`, as long as the summed work does not exceed the total. -/
theorem foldl_sub64 :
    ∀ (h : TaskHeap) (T : Nat), heapWork h ≤ T →
    h.foldl (fun r t => sub64 r t.work) (T % M64) = (T - heapWork h) % M64 := by
  intro h
  induction h with
  | nil => intro T _; simp [heapWork]
  | cons t rest ih =>
    intro T hle
    rw [heapWork_cons] at hle
    simp only [List.foldl_cons]
    rw [sub64_mod T t.work (by omega), ih (T - t.work) (by omega),
      heapWork_cons]
    congr 1
    omega

/-- `LockCache` only appends to the lock log: every accounting-relevant
field is untouched. -/
theorem M_LockCache (c n : Int) (q : TaskQueue) :
    totalWork (LockCache c n q) = totalWork q ∧
    totalTasks (LockCache c n q) = totalTasks q ∧
    (LockCache c n q).num_remaining_tasks_ = q.num_remaining_tasks_ ∧
    (LockCache c n q).remaining_local_computation_ =
      q.remaining_local_computation_ ∧
    (LockCache c n q).tasks_ = q.tasks_ ∧
    (LockCache c n q).query_subtables_ = q.query_subtables_ ∧
    (LockCache c n q).checked_out_query_subtables_ =
      q.checked_out_query_subtables_ :=
  ⟨rfl, rfl, rfl, rfl, rfl, rfl, rfl⟩

theorem sumMap_constNil {α : Type} (l : List α) (f : TaskHeap → Nat)
    (hf : f [] = 0) : ((l.map (fun _ => ([] : TaskHeap))).map f).sum = 0 := by
  induction l with
  | nil => simp
  | cons a l ih => simp [hf, ih]

/-- Initialization establishes the exact accounting invariant: no tasks,
both counters zero. -/
theorem M_Init (nt : Int) (qsubs : List SubTable) (tq trp : Nat)
    (cache : List (Int × SubTable)) (lf : List (Nat × Nat × Tree))
    (lr : Int) : TaskInv (InitQueue nt qsubs tq trp cache lf lr) := by
  have h1 : totalTasks (InitQueue nt qsubs tq trp cache lf lr) = 0 := by
    unfold totalTasks InitQueue
    rw [sumMap_constNil qsubs List.length rfl]
    simp
  have h2 : totalWork (InitQueue nt qsubs tq trp cache lf lr) = 0 := by
    unfold totalWork InitQueue
    rw [sumMap_constNil qsubs heapWork rfl]
    simp
  refine ⟨?_, ?_, ?_⟩
  · rw [h1]; rfl
  · rw [h2]; rfl
  · rw [h2]; unfold M64; positivity

/-- One iteration of the re-push loop (two pushes and a cache lock)
preserves the machine accounting invariant and the vector shapes. -/
theorem M_splitStep (m : Int → Int → Int) (p : Int → Int) (s : Nat)
    (t : Task) (q : TaskQueue) (hs : s < q.tasks_.length)
    (hlen : q.query_subtables_.length = q.tasks_.length)
    (hm : ModInv q) :
    ModInv (splitPushStep m p s q t) ∧
    (splitPushStep m p s q t).tasks_.length = q.tasks_.length ∧
    (splitPushStep m p s q t).query_subtables_ = q.query_subtables_ := by
  have hstep : splitPushStep m p s q t =
      LockCache t.referenceSubtable.cacheBlockId 1
        (PushTask m p
          ((PushTask m p s t.referenceSubtable q).query_subtables_.length - 1)
          t.referenceSubtable (PushTask m p s t.referenceSubtable q)) := rfl
  rw [hstep]
  obtain ⟨hma, _, _, hlen_a, hqs_a, _⟩ :=
    M_PushTask m p s t.referenceSubtable q hs hm
  have hj : (PushTask m p s t.referenceSubtable q).query_subtables_.length - 1 <
      (PushTask m p s t.referenceSubtable q).tasks_.length := by
    rw [hqs_a, hlen_a, hlen]
    omega
  obtain ⟨hmb, _, _, hlen_b, hqs_b, _⟩ :=
    M_PushTask m p
      ((PushTask m p s t.referenceSubtable q).query_subtables_.length - 1)
      t.referenceSubtable (PushTask m p s t.referenceSubtable q) hj hma
  obtain ⟨w1, w2, w3, w4, w5, w6, w7⟩ :=
    M_LockCache t.referenceSubtable.cacheBlockId 1
      (PushTask m p
        ((PushTask m p s t.referenceSubtable q).query_subtables_.length - 1)
        t.referenceSubtable (PushTask m p s t.referenceSubtable q))
  refine ⟨⟨?_, ?_⟩, ?_, ?_⟩
  · rw [w3, w2]; exact hmb.1
  · rw [w4, w1]; exact hmb.2
  · rw [w5, hlen_b, hlen_a]
  · rw [w6, hqs_b, hqs_a]

/-- The whole re-push loop of `split_subtree_` preserves the machine
accounting invariant. -/
theorem M_splitFold (m : Int → Int → Int) (p : Int → Int) (s : Nat) :
    ∀ (ts : List Task) (q : TaskQueue), s < q.tasks_.length →
    q.query_subtables_.length = q.tasks_.length → ModInv q →
    ModInv (ts.foldl (splitPushStep m p s) q) := by
  intro ts
  induction ts with
  | nil => intro q _ _ hm; exact hm
  | cons t ts ih =>
    intro q hs hlen hm
    simp only [List.foldl_cons]
    obtain ⟨hm2, hlt, hq⟩ := M_splitStep m p s t q hs hlen hm
    exact ih _ (by rw [hlt]; exact hs) (by rw [hq, hlt]; exact hlen) hm2

/-- `split_subtree_` preserves the machine accounting invariant: the drain
phase removes the slot's tasks from both counters exactly and the re-push
phase re-adds each re-created task through `PushTask`. -/
theorem M_split (wr : Int) (m : Int → Int → Int) (p : Int → Int) (s : Nat)
    (q q2 : TaskQueue) (hs : s < q.tasks_.length)
    (hlen : q.query_subtables_.length = q.tasks_.length) (hm : ModInv q)
    (hsp : split_subtree_ wr m p s q = some q2) : ModInv q2 := by
  cases ha : q.assigned_work_.getD s none with
  | none =>
    rw [split_none wr m p s q hs ha] at hsp
    exact Option.noConfusion hsp
  | some aset =>
    rw [split_spec wr m p s q aset hs ha] at hsp
    obtain rfl := (Option.some.inj hsp).symm
    have hhw : heapWork (q.tasks_.getD s []) ≤ totalWork q := by
      have := elem_le_sumMap heapWork q.tasks_ s [] hs
      unfold totalWork
      omega
    have hhl : (q.tasks_.getD s []).length ≤ totalTasks q := by
      have := elem_le_sumMap List.length q.tasks_ s [] hs
      unfold totalTasks
      omega
    have hw1 := sumMap_set heapWork q.tasks_ s [] [] hs
    have hc1 := sumMap_set List.length q.tasks_ s [] [] hs
    have hnil : heapWork ([] : TaskHeap) = 0 := rfl
    simp only [hnil, List.length_nil] at hw1 hc1
    refine M_splitFold m p s (q.tasks_.getD s []) _ ?_ ?_ ?_
    · simp only [List.length_append, List.length_set, List.length_singleton]
      omega
    · simp only [List.length_append, List.length_set, List.length_singleton]
      omega
    · constructor
      · show q.num_remaining_tasks_ - ((q.tasks_.getD s []).length : Int) = _
        have hC : totalTasks { q with
            query_subtables_ :=
              (q.query_subtables_.set s
                (withStart (q.query_subtables_.getD s SubTable.dflt)
                  (q.query_subtables_.getD s SubTable.dflt).startNode.left))
              ++ [withStart (q.query_subtables_.getD s SubTable.dflt)
                  (q.query_subtables_.getD s SubTable.dflt).startNode.right],
            tasks_ := (q.tasks_.set s []) ++ [[]],
            num_remaining_tasks_ :=
              q.num_remaining_tasks_ - ((q.tasks_.getD s []).length : Int),
            remaining_local_computation_ :=
              (q.tasks_.getD s []).foldl (fun r t => sub64 r t.work)
                q.remaining_local_computation_,
            assigned_work_ := q.assigned_work_ ++ [some aset],
            remaining_work_for_query_subtables_ :=
              q.remaining_work_for_query_subtables_ ++
                [q.remaining_work_for_query_subtables_.getD s 0] } =
            totalTasks q - (q.tasks_.getD s []).length := by
          unfold totalTasks
          simp only [List.map_append, List.sum_append, List.map_cons,
            List.map_nil, List.sum_cons, List.sum_nil, List.length_nil]
          omega
        rw [hC, hm.1]
        omega
      · show (q.tasks_.getD s []).foldl (fun r t => sub64 r t.work)
            q.remaining_local_computation_ = _
        have hW : totalWork { q with
            query_subtables_ :=
              (q.query_subtables_.set s
                (withStart (q.query_subtables_.getD s SubTable.dflt)
                  (q.query_subtables_.getD s SubTable.dflt).startNode.left))
              ++ [withStart (q.query_subtables_.getD s SubTable.dflt)
                  (q.query_subtables_.getD s SubTable.dflt).startNode.right],
            tasks_ := (q.tasks_.set s []) ++ [[]],
            num_remaining_tasks_ :=
              q.num_remaining_tasks_ - ((q.tasks_.getD s []).length : Int),
            remaining_local_computation_ :=
              (q.tasks_.getD s []).foldl (fun r t => sub64 r t.work)
                q.remaining_local_computation_,
            assigned_work_ := q.assigned_work_ ++ [some aset],
            remaining_work_for_query_subtables_ :=
              q.remaining_work_for_query_subtables_ ++
                [q.remaining_work_for_query_subtables_.getD s 0] } =
            totalWork q - heapWork (q.tasks_.getD s []) := by
          unfold totalWork
          simp only [List.map_append, List.sum_append, List.map_cons,
            List.map_nil, List.sum_cons, List.sum_nil, hnil]
          omega
        rw [hW, hm.2]
        exact foldl_sub64 (q.tasks_.getD s []) (totalWork q) hhw

/-- The candidate scan of `RedistributeAmongCores_` only ever returns a
slot whose task heap is non-empty: the guard of the running maximum
requires it, and a non-qualifying index leaves the accumulator alone. -/
theorem scFold_nonempty (q : TaskQueue) :
    ∀ (l : List Nat) (acc : Option Nat),
    (∀ b, acc = some b → 0 < (q.tasks_.getD b []).length) →
    ∀ i, l.foldl
      (fun best i =>
        let sub := q.query_subtables_.getD i SubTable.dflt
        if !sub.startNode.isLeaf ∧ (q.tasks_.getD i []).length > 0 ∧
            (match best with
             | none => 0
             | some b =>
               (q.query_subtables_.getD b SubTable.dflt).startNode.count)
              < sub.startNode.count
        then some i else best) acc = some i →
    0 < (q.tasks_.getD i []).length := by
  intro l
  induction l with
  | nil => intro acc hacc i h; exact hacc i h
  | cons j l ih =>
    intro acc hacc i h
    simp only [List.foldl_cons] at h
    refine ih _ ?_ i h
    intro b hb
    split at hb
    · next hcond =>
        obtain rfl := Option.some.inj hb
        exact hcond.2.1
    · exact hacc b hb

/-- `RedistributeAmongCores_` preserves the machine accounting invariant:
it either leaves the state alone or splits a slot with a non-empty heap. -/
theorem M_Redistribute (wr : Int) (m : Int → Int → Int) (p : Int → Int)
    (q q2 : TaskQueue)
    (hlen : q.query_subtables_.length = q.tasks_.length) (hm : ModInv q)
    (h : RedistributeAmongCores_ wr m p q = some q2) : ModInv q2 := by
  unfold RedistributeAmongCores_ at h
  cases hsc : splitCandidate q with
  | none =>
    rw [hsc] at h
    obtain rfl := Option.some.inj h
    exact hm
  | some i =>
    rw [hsc] at h
    unfold splitCandidate at hsc
    have hne : 0 < (q.tasks_.getD i []).length :=
      scFold_nonempty q (List.range q.query_subtables_.length) none
        (fun b hb => Option.noConfusion hb) i hsc
    have hi : i < q.tasks_.length := by
      refine lt_length_of_getD_ne (d := []) ?_
      intro hx
      rw [hx] at hne
      simp at hne
    exact M_split wr m p i q q2 hi hlen hm h

/-- The active-slot loop body of `GenerateTasks` preserves the machine
accounting invariant wherever it is defined, and leaves the vector shapes
alone. -/
theorem M_gaStep (wr : Int) (m : Int → Int → Int) (p : Int → Int)
    (ref : SubTable) (grid : Interval) (cid : Int) (j : Nat)
    (q q2 : TaskQueue) (hj : j < q.tasks_.length) (hm : ModInv q)
    (h : genActiveStep wr m p ref grid cid j q = some q2) :
    ModInv q2 ∧ q2.tasks_.length = q.tasks_.length ∧
    q2.query_subtables_ = q.query_subtables_ ∧
    q2.checked_out_query_subtables_ = q.checked_out_query_subtables_ := by
  unfold genActiveStep at h
  by_cases hr : (q.query_subtables_.getD j SubTable.dflt).tableRank = wr
  · rw [if_pos hr] at h
    cases ha : q.assigned_work_.getD j none with
    | none =>
      simp only [ha] at h
      exact Option.noConfusion h
    | some s0 =>
      simp only [ha] at h
      rcases hd : disInsert s0 grid with ⟨b, s2⟩
      simp only [hd] at h
      cases b with
      | false =>
        obtain rfl := Option.some.inj h
        exact ⟨hm, rfl, rfl, rfl⟩
      | true =>
        obtain rfl := (Option.some.inj h).symm
        have hmz : ModInv
            ({ q with assigned_work_ := q.assigned_work_.set j (some s2) } :
              TaskQueue) := hm
        obtain ⟨hma, _, _, hlen_a, hq_a, hc_a⟩ :=
          M_PushTask m p j ref
            { q with assigned_work_ := q.assigned_work_.set j (some s2) }
            hj hmz
        obtain ⟨w1, w2, w3, w4, w5, w6, w7⟩ :=
          M_LockCache cid 1
            (PushTask m p j ref
              { q with assigned_work_ := q.assigned_work_.set j (some s2) })
        refine ⟨⟨?_, ?_⟩, ?_, ?_, ?_⟩
        · rw [w3, w2]; exact hma.1
        · rw [w4, w1]; exact hma.2
        · rw [w5, hlen_a]
        · rw [w6, hq_a]
        · rw [w7, hc_a]
  · rw [if_neg hr] at h
    obtain rfl := Option.some.inj h
    exact ⟨hm, rfl, rfl, rfl⟩

/-- The checked-out loop body of `GenerateTasks` preserves the machine
accounting invariant wherever it is defined: a successful insert pushes one
task into the entry's own heap and bumps both counters accordingly. -/
theorem M_gcStep (m : Int → Int → Int) (p : Int → Int) (ref : SubTable)
    (grid : Interval) (cid : Int) (i : Nat) (q q2 : TaskQueue)
    (hi : i < q.checked_out_query_subtables_.length) (hm : ModInv q)
    (h : genCheckedStep m p ref grid cid i q = some q2) :
    ModInv q2 ∧ q2.tasks_ = q.tasks_ ∧
    q2.query_subtables_ = q.query_subtables_ ∧
    q2.checked_out_query_subtables_.length =
      q.checked_out_query_subtables_.length := by
  simp only [genCheckedStep] at h
  cases ha : (q.checked_out_query_subtables_.getD i
      QuerySubTableLock.dflt).assigned_work_ with
  | none =>
    simp only [ha] at h
    exact Option.noConfusion h
  | some s0 =>
    simp only [ha] at h
    rcases hd : disInsert s0 grid with ⟨b, s2⟩
    simp only [hd] at h
    cases b with
    | false =>
      obtain rfl := Option.some.inj h
      exact ⟨hm, rfl, rfl, rfl⟩
    | true =>
      obtain rfl := (Option.some.inj h).symm
      set e := q.checked_out_query_subtables_.getD i QuerySubTableLock.dflt
        with he
      set t := mkTask m p e.query_subtable_ ref with ht
      have h1 := sumMap_set (fun e2 => e2.task_.length)
        q.checked_out_query_subtables_ i
        { e with assigned_work_ := some s2, task_ := heapPush t e.task_ }
        QuerySubTableLock.dflt hi
      have h2 := sumMap_set (fun e2 => heapWork e2.task_)
        q.checked_out_query_subtables_ i
        { e with assigned_work_ := some s2, task_ := heapPush t e.task_ }
        QuerySubTableLock.dflt hi
      beta_reduce at h1 h2
      have hproj :
          ({ e with assigned_work_ := some s2, task_ := heapPush t e.task_ } :
            QuerySubTableLock).task_ = heapPush t e.task_ := rfl
      rw [hproj, length_heapPush] at h1
      rw [hproj, heapWork_heapPush] at h2
      rw [← he] at h1 h2
      have hC : totalTasks { q with
          checked_out_query_subtables_ :=
            q.checked_out_query_subtables_.set i
              { e with assigned_work_ := some s2,
                       task_ := heapPush t e.task_ },
          num_remaining_tasks_ := q.num_remaining_tasks_ + 1,
          remaining_local_computation_ :=
            add64 q.remaining_local_computation_ t.work } =
          totalTasks q + 1 := by
        unfold totalTasks
        simp only []
        omega
      have hW : totalWork { q with
          checked_out_query_subtables_ :=
            q.checked_out_query_subtables_.set i
              { e with assigned_work_ := some s2,
                       task_ := heapPush t e.task_ },
          num_remaining_tasks_ := q.num_remaining_tasks_ + 1,
          remaining_local_computation_ :=
            add64 q.remaining_local_computation_ t.work } =
          totalWork q + t.work := by
        unfold totalWork
        simp only []
        omega
      obtain ⟨w1, w2, w3, w4, w5, w6, w7⟩ :=
        M_LockCache cid 1 { q with
          checked_out_query_subtables_ :=
            q.checked_out_query_subtables_.set i
              { e with assigned_work_ := some s2,
                       task_ := heapPush t e.task_ },
          num_remaining_tasks_ := q.num_remaining_tasks_ + 1,
          remaining_local_computation_ :=
            add64 q.remaining_local_computation_ t.work }
      refine ⟨⟨?_, ?_⟩, ?_, ?_, ?_⟩
      · rw [w3, w2, hC]
        show q.num_remaining_tasks_ + 1 = ((totalTasks q + 1 : Nat) : Int)
        rw [hm.1]
        push_cast
        ring
      · rw [w4, w1, hW]
        show add64 q.remaining_local_computation_ t.work =
          (totalWork q + t.work) % M64
        rw [hm.2]
        exact add64_mod _ _
      · rw [w5]
      · rw [w6]
      · rw [w7]
        simp

/-- The active-slot loop of `GenerateTasks` preserves the machine
accounting invariant over any run of in-range slot indices. -/
theorem M_gaFold (wr : Int) (m : Int → Int → Int) (p : Int → Int)
    (ref : SubTable) (grid : Interval) (cid : Int) :
    ∀ (js : List Nat) (q q2 : TaskQueue),
    (∀ j ∈ js, j < q.tasks_.length) → ModInv q →
    stepListM (genActiveStep wr m p ref grid cid) js q = some q2 →
    ModInv q2 ∧ q2.tasks_.length = q.tasks_.length ∧
    q2.query_subtables_ = q.query_subtables_ ∧
    q2.checked_out_query_subtables_ = q.checked_out_query_subtables_ := by
  intro js
  induction js with
  | nil =>
    intro q q2 _ hm h
    simp only [stepListM] at h
    obtain rfl := Option.some.inj h
    exact ⟨hm, rfl, rfl, rfl⟩
  | cons j js ih =>
    intro q q2 hb hm h
    simp only [stepListM] at h
    cases hf : genActiveStep wr m p ref grid cid j q with
    | none =>
      rw [hf] at h
      exact Option.noConfusion h
    | some qm =>
      rw [hf] at h
      obtain ⟨hm1, hl1, hq1, hc1⟩ :=
        M_gaStep wr m p ref grid cid j q qm (hb j (by simp)) hm hf
      obtain ⟨hm2, hl2, hq2, hc2⟩ := ih qm q2
        (fun k hk => by rw [hl1]; exact hb k (by simp [hk])) hm1 h
      exact ⟨hm2, by rw [hl2, hl1], by rw [hq2, hq1], by rw [hc2, hc1]⟩

/-- The checked-out loop of `GenerateTasks` preserves the machine
accounting invariant over any run of in-range entry indices. -/
theorem M_gcFold (m : Int → Int → Int) (p : Int → Int) (ref : SubTable)
    (grid : Interval) (cid : Int) :
    ∀ (js : List Nat) (q q2 : TaskQueue),
    (∀ j ∈ js, j < q.checked_out_query_subtables_.length) → ModInv q →
    stepListM (genCheckedStep m p ref grid cid) js q = some q2 →
    ModInv q2 ∧ q2.tasks_ = q.tasks_ ∧
    q2.query_subtables_ = q.query_subtables_ ∧
    q2.checked_out_query_subtables_.length =
      q.checked_out_query_subtables_.length := by
  intro js
  induction js with
  | nil =>
    intro q q2 _ hm h
    simp only [stepListM] at h
    obtain rfl := Option.some.inj h
    exact ⟨hm, rfl, rfl, rfl⟩
  | cons j js ih =>
    intro q q2 hb hm h
    simp only [stepListM] at h
    cases hf : genCheckedStep m p ref grid cid j q with
    | none =>
      rw [hf] at h
      exact Option.noConfusion h
    | some qm =>
      rw [hf] at h
      obtain ⟨hm1, ht1, hq1, hc1⟩ :=
        M_gcStep m p ref grid cid j q qm (hb j (by simp)) hm hf
      obtain ⟨hm2, ht2, hq2, hc2⟩ := ih qm q2
        (fun k hk => by rw [hc1]; exact hb k (by simp [hk])) hm1 h
      exact ⟨hm2, by rw [ht2, ht1], by rw [hq2, hq1], by rw [hc2, hc1]⟩

/-- One received reference id of `GenerateTasks` preserves the machine
accounting invariant and the equal length of the subtree and heap
vectors. -/
theorem M_GTone (wr : Int) (m : Int → Int → Int) (p : Int → Int)
    (id : Int × Nat × Nat × Int) (q q2 : TaskQueue)
    (hlen : q.query_subtables_.length = q.tasks_.length) (hm : ModInv q)
    (h : GenerateTasksOne wr m p id q = some q2) :
    ModInv q2 ∧ q2.query_subtables_.length = q2.tasks_.length := by
  simp only [GenerateTasksOne] at h
  cases hr : resolveReference id.2.1 id.2.2.1 id.2.2.2 q with
  | none =>
    rw [hr] at h
    exact Option.noConfusion h
  | some ref =>
    simp only [hr] at h
    cases hs1 : stepListM
        (genActiveStep wr m p ref (ref.tableRank, id.2.1, id.2.1 + id.2.2.1)
          id.2.2.2)
        (List.range q.query_subtables_.length) q with
    | none =>
      rw [hs1] at h
      exact Option.noConfusion h
    | some qa =>
      rw [hs1] at h
      obtain ⟨hma, hla, hqa, hca⟩ :=
        M_gaFold wr m p ref (ref.tableRank, id.2.1, id.2.1 + id.2.2.1)
          id.2.2.2 (List.range q.query_subtables_.length) q qa
          (fun j hj => by rw [← hlen]; exact List.mem_range.mp hj) hm hs1
      obtain ⟨hmc, htc, hqc, hcc⟩ :=
        M_gcFold m p ref (ref.tableRank, id.2.1, id.2.1 + id.2.2.1)
          id.2.2.2 (List.range qa.checked_out_query_subtables_.length) qa q2
          (fun j hj => List.mem_range.mp hj) hma h
      refine ⟨hmc, ?_⟩
      rw [hqc, hqa, htc]
      rw [hla, hlen]

/-- `GenerateTasks` preserves the machine accounting invariant across the
whole list of received reference ids. -/
theorem M_GT (wr : Int) (m : Int → Int → Int) (p : Int → Int) :
    ∀ (ids : List (Int × Nat × Nat × Int)) (q q2 : TaskQueue),
    q.query_subtables_.length = q.tasks_.length → ModInv q →
    GenerateTasks wr m p ids q = some q2 → ModInv q2 := by
  intro ids
  induction ids with
  | nil =>
    intro q q2 _ hm h
    simp only [GenerateTasks] at h
    obtain rfl := Option.some.inj h
    exact hm
  | cons id rest ih =>
    intro q q2 hlen hm h
    simp only [GenerateTasks] at h
    cases h1 : GenerateTasksOne wr m p id q with
    | none =>
      rw [h1] at h
      exact Option.noConfusion h
    | some qm =>
      rw [h1] at h
      obtain ⟨hm1, hlen1⟩ := M_GTone wr m p id q qm hlen hm h1
      exact ih qm q2 hlen1 hm1 h

/-- The probe loop of the scanning `DequeueTask` preserves the machine
accounting invariant for any fuel, probe position and accumulator. -/
theorem M_dequeueLoop (wr : Int) (co : Bool) :
    ∀ (fuel pi : Nat) (acc : Option (Task × Nat)) (q : TaskQueue),
    ModInv q → ModInv (dequeueLoop wr co fuel pi acc q).2 := by
  intro fuel
  induction fuel with
  | zero => intro pi acc q hm; exact hm
  | succ fuel ih =>
    intro pi acc q hm
    by_cases hg : (acc = none ∧ pi < q.tasks_.length)
    · obtain ⟨rfl, hpi⟩ := hg
      rcases hDT : DequeueTask wr pi co q with ⟨res, cleaned, qq⟩
      have hun : dequeueLoop wr co (fuel + 1) pi none q =
          dequeueLoop wr co fuel (if cleaned then pi else pi + 1) res qq := by
        rw [dequeueLoop,
          if_pos (⟨rfl, hpi⟩ :
            (none : Option (Task × Nat)) = none ∧ pi < q.tasks_.length),
          hDT]
      rw [hun]
      have hstep := M_DequeueSlot wr pi co q hpi hm
      rw [hDT] at hstep
      exact ih _ _ qq hstep.1
    · rw [dequeueLoop, if_neg hg]
      exact hm

/-- The scanning `DequeueTask` preserves the machine accounting
invariant. -/
theorem M_DequeueAll (wr : Int) (tid : Nat) (m : Int → Int → Int)
    (p : Int → Int) (co : Bool) (q : TaskQueue)
    (r : Option (Task × Nat) × TaskQueue)
    (hlen : q.query_subtables_.length = q.tasks_.length) (hm : ModInv q)
    (h : DequeueTaskAll wr tid m p co q = some r) : ModInv r.2 := by
  by_cases hcmp : ((q.tasks_.length : Int) < q.num_threads_)
  · simp only [DequeueTaskAll, if_pos hcmp] at h
    cases h1 : RedistributeAmongCores_ wr m p q with
    | none =>
      rw [h1] at h
      exact Option.noConfusion h
    | some q1 =>
      rw [h1] at h
      obtain rfl := (Option.some.inj h).symm
      exact M_dequeueLoop wr co _ 0 none q1
        (M_Redistribute wr m p q q1 hlen hm h1)
  · simp only [DequeueTaskAll, if_neg hcmp] at h
    obtain rfl := (Option.some.inj h).symm
    exact M_dequeueLoop wr co _ 0 none q hm

/-- Claim C1: task accounting.  Initialization establishes the exact
invariant `num_remaining_tasks = Σ heap sizes` and
`remaining_local = Σ work(t)` over the active and checked-out heaps (the
machine counter holds the sum reduced modulo `2 ^ 64`); every public
operation — `PushTask`, `pop`, the single-slot and the scanning
`DequeueTask`, `GenerateTasks`, `split_subtree_`, checkout
(`LockQuerySubTable`) and return (`ReturnQuerySubTable`) — preserves the
machine form of the invariant, which coincides with the exact equality
whenever the total held work fits in the 64-bit counter. -/
theorem C1_task_accounting :
    (∀ (nt : Int) (qsubs : List SubTable) (tq trp : Nat)
        (cache : List (Int × SubTable)) (lf : List (Nat × Nat × Tree))
        (lr : Int), TaskInv (InitQueue nt qsubs tq trp cache lf lr)) ∧
    (∀ (m : Int → Int → Int) (p : Int → Int) (j : Nat) (r : SubTable)
        (q : TaskQueue), j < q.tasks_.length → ModInv q →
        ModInv (PushTask m p j r q)) ∧
    (∀ (s : Nat) (q q2 : TaskQueue), pop s q = some q2 → ModInv q →
        ModInv q2 ∧ totalWork q2 ≤ totalWork q) ∧
    (∀ (wr : Int) (s : Nat) (co : Bool) (q : TaskQueue),
        s < q.tasks_.length → ModInv q →
        ModInv (DequeueTask wr s co q).2.2) ∧
    (∀ (wr : Int) (tid : Nat) (m : Int → Int → Int) (p : Int → Int)
        (co : Bool) (q : TaskQueue) (r : Option (Task × Nat) × TaskQueue),
        q.query_subtables_.length = q.tasks_.length → ModInv q →
        DequeueTaskAll wr tid m p co q = some r → ModInv r.2) ∧
    (∀ (wr : Int) (m : Int → Int → Int) (p : Int → Int)
        (ids : List (Int × Nat × Nat × Int)) (q q2 : TaskQueue),
        q.query_subtables_.length = q.tasks_.length → ModInv q →
        GenerateTasks wr m p ids q = some q2 → ModInv q2) ∧
    (∀ (wr : Int) (m : Int → Int → Int) (p : Int → Int) (s : Nat)
        (q q2 : TaskQueue), s < q.tasks_.length →
        q.query_subtables_.length = q.tasks_.length → ModInv q →
        split_subtree_ wr m p s q = some q2 → ModInv q2) ∧
    (∀ (s : Nat) (r : Int) (q : TaskQueue), s < q.tasks_.length →
        ModInv q → ModInv (LockQuerySubTable s r q)) ∧
    (∀ (i : Nat) (q : TaskQueue), ModInv q →
        ModInv (ReturnQuerySubTable i q)) ∧
    (∀ q : TaskQueue, ModInv q → totalWork q < M64 → TaskInv q) := by
  refine ⟨M_Init, ?_, ?_, ?_, ?_, ?_, ?_, ?_, ?_, ?_⟩
  · intro m p j r q hj hm
    exact (M_PushTask m p j r q hj hm).1
  · intro s q q2 hpop hm
    exact M_pop s q q2 hpop hm
  · intro wr s co q hs hm
    exact (M_DequeueSlot wr s co q hs hm).1
  · intro wr tid m p co q r hlen hm h
    exact M_DequeueAll wr tid m p co q r hlen hm h
  · intro wr m p ids q q2 hlen hm h
    exact M_GT wr m p ids q q2 hlen hm h
  · intro wr m p s q q2 hs hlen hm h
    exact M_split wr m p s q q2 hs hlen hm h
  · intro s r q hs hm
    obtain ⟨l1, l2, l3, l4⟩ := M_Lock s r q hs
    exact ⟨by rw [l3, l2]; exact hm.1, by rw [l4, l1]; exact hm.2⟩
  · intro i q hm
    obtain ⟨l1, l2, l3, l4⟩ := M_Return i q
    exact ⟨by rw [l3, l2]; exact hm.1, by rw [l4, l1]; exact hm.2⟩
  · intro q hm hb
    exact hm.toTask hb

/-- Witness for C1 at a concrete input: the example initial queue
satisfies the exact invariant and pushing one task into its slot 0
preserves the machine invariant. -/
theorem C1_witness :
    TaskInv exQ0 ∧ ModInv (PushTask exMetric exPrank 0 exRefSub exQ0) :=
  ⟨C1_task_accounting.1 1 [exQSub] 2 3 [(42, exRefSub)] [] 0,
   C1_task_accounting.2.1 exMetric exPrank 0 exRefSub exQ0 (by decide)
     (by decide)⟩

end DistributedDualtreeTaskQueueSpec
